import Mathlib

/-!
Verification of the Game-of-Life core (`src/rust/src/world.rs`) against its
specification.  The Rust `World`/`Cell` model is shallowly embedded below:
`u32` arithmetic is `Nat` with explicit reduction mod `2^32`, the
`HashMap<String, Cell>` is an association list with the same `format!("{}-{}")`
string keys, fallible operations (`unwrap`) return `Option`, and the random
initialiser `thread_rng().next_f32() <= 0.2` is an injectable boolean source
over which all statements quantify.
-/

namespace GoL

/-- Number of values of a Rust `u32`. -/
def u32Size : Nat := 4294967296

/-- The Rust cast `(d as u32)` of an `i8` value `d`: two's-complement
reinterpretation, i.e. reduction mod `2^32` (so `-1` becomes `4294967295`). -/
def i8ToU32 (d : Int) : Nat := (d % (u32Size : Int)).toNat

/-- Rust `u32` addition, wrapping mod `2^32` (release-mode semantics of
`cell.x + set[0] as u32`). -/
def u32Add (a b : Nat) : Nat := (a + b) % u32Size

/-- One grid cell, translated from `struct Cell`.  The Rust field
`neighbours: Option<Vec<&Cell>>` caches references into the world's cell map;
a reference is modelled by the referenced cell's coordinates, and is always
read back through the live map (as the Rust references alias it). -/
structure Cell where
  x : Nat
  y : Nat
  alive : Bool
  next_state : Option Nat
  neighbours : Option (List (Nat × Nat))
deriving DecidableEq

/-- `Cell::new`. -/
def Cell.new (x y : Nat) (alive : Bool) : Cell :=
  { x := x, y := y, alive := alive, next_state := none, neighbours := none }

/-- `Cell::to_char`. -/
def Cell.to_char (c : Cell) : Char :=
  if c.alive then 'o' else ' '

/-- `Cell::next_state_is`. -/
def Cell.next_state_is (c : Cell) (value : Option Nat) : Cell :=
  { c with next_state := value }

/-- The map key `format!("{}-{}", x, y)`: decimal rendering of both
coordinates joined by a dash. -/
def cellKey (x y : Nat) : String := Nat.repr x ++ "-" ++ Nat.repr y

/-- The Rust `HashMap<String, Cell>` is modelled as an association list with
unique keys.  Rust leaves the `HashMap` iteration order unspecified; the
order-generic sequential tick `World.tickSeq` below accounts for that. -/
abbrev CellMap := List (String × Cell)

/-- `World::cell_at` on a raw cell map: key lookup. -/
def cellAtIn (cells : CellMap) (x y : Nat) : Option Cell :=
  List.lookup (cellKey x y) cells

/-- `HashMap::insert`: replaces the value at an existing key, otherwise adds
a new entry. -/
def insertCell (cells : CellMap) (k : String) (c : Cell) : CellMap :=
  if cells.any (fun kc => kc.1 == k) then
    cells.map (fun kc => if kc.1 == k then (k, c) else kc)
  else
    cells ++ [(k, c)]

/-- The neighbour computation inside `World::neighbours_around`: apply the
eight cached direction offsets with `u32` wrap-around arithmetic and keep the
coordinates that resolve to an existing cell. -/
def computeNeighboursIn (cells : CellMap) (dirs : List (Int × Int)) (c : Cell) :
    List (Nat × Nat) :=
  dirs.filterMap (fun set =>
    let nx := u32Add c.x (i8ToU32 set.1)
    let ny := u32Add c.y (i8ToU32 set.2)
    if (cellAtIn cells nx ny).isSome then some (nx, ny) else none)

/-- `World::neighbours_around`: the cached list when present, otherwise the
freshly computed one.  (On a cache miss the Rust code also writes the computed
list into the cache; after `prepopulate_neighbours` every cache is filled, so
on every reachable world this read never misses — see `World.WF`.) -/
def neighboursAroundIn (cells : CellMap) (dirs : List (Int × Int)) (c : Cell) :
    List (Nat × Nat) :=
  match c.neighbours with
  | some ns => ns
  | none => computeNeighboursIn cells dirs c

/-- `World::alive_neighbours_around`: count of cached neighbours whose cell is
currently alive.  (The Rust counter is a `u8`; the count is bounded by the
neighbour-list length, at most 8 on reachable worlds, so it never wraps.) -/
def aliveNeighboursAroundIn (cells : CellMap) (dirs : List (Int × Int)) (c : Cell) : Nat :=
  (neighboursAroundIn cells dirs c).countP (fun p =>
    match cellAtIn cells p.1 p.2 with
    | some neighbour => neighbour.alive
    | none => false)

/-- `struct World`.  All three numeric fields are Rust `u32`s modelled as
`Nat`: `width` and `height` are fixed at construction (their `< 2^32` bound is
carried as a hypothesis wherever it matters), and the `tick` counter is
incremented mod `2^32` by `_tick` — `self.tick += 1` wraps in release mode —
so on every reachable world it stays below `2^32` (`reachable_tick_lt`). -/
structure World where
  width : Nat
  height : Nat
  tick : Nat
  cells : CellMap
  cached_directions : List (Int × Int)
deriving DecidableEq

/-- The literal `cached_directions` array from `World::new`. -/
def theDirections : List (Int × Int) :=
  [(-1, 1), (0, 1), (1, 1), (-1, 0), (1, 0), (-1, -1), (0, -1), (1, -1)]

/-- `World::cell_at`. -/
def World.cell_at (w : World) (x y : Nat) : Option Cell :=
  cellAtIn w.cells x y

/-- `World::neighbours_around` (see `neighboursAroundIn`). -/
def World.neighbours_around (w : World) (c : Cell) : List (Nat × Nat) :=
  neighboursAroundIn w.cells w.cached_directions c

/-- `World::alive_neighbours_around`. -/
def World.alive_neighbours_around (w : World) (c : Cell) : Nat :=
  aliveNeighboursAroundIn w.cells w.cached_directions c

/-- `World::add_cell` (the returned `&Cell` is unused by its one caller and is
not modelled). -/
def World.add_cell (w : World) (x y : Nat) (alive : Bool) : World :=
  { w with cells := insertCell w.cells (cellKey x y) (Cell.new x y alive) }

/-- `World::populate_cells`.  The per-cell draw
`thread_rng().next_f32() <= 0.2` is modelled by the injectable source
`rng x y`; every claim quantifies over it. -/
def World.populate_cells (w : World) (rng : Nat → Nat → Bool) : World :=
  (List.range w.height).foldl (fun wy y =>
    (List.range w.width).foldl (fun wx x => wx.add_cell x y (rng x y)) wy) w

/-- `World::prepopulate_neighbours`: run `neighbours_around` on every cell,
filling each cell's cache.  (Computing a cell's neighbours reads only the key
set of the map, which the loop never changes, so the per-cell cache writes are
modelled simultaneously.) -/
def World.prepopulate_neighbours (w : World) : World :=
  { w with cells := w.cells.map (fun kc =>
      (kc.1, { kc.2 with
        neighbours := some (neighboursAroundIn w.cells w.cached_directions kc.2) })) }

/-- `World::new`. -/
def World.new (width height : Nat) (rng : Nat → Nat → Bool) : World :=
  let world : World :=
    { width := width, height := height, tick := 0, cells := []
      cached_directions := theDirections }
  (world.populate_cells rng).prepopulate_neighbours

/-- The decide-phase body of `World::_tick` for one cell. -/
def decideCellIn (cells : CellMap) (dirs : List (Int × Int)) (c : Cell) : Cell :=
  let alive_neighbours := aliveNeighboursAroundIn cells dirs c
  if !c.alive && alive_neighbours == 3 then
    c.next_state_is (some 1)
  else if alive_neighbours < 2 || alive_neighbours > 3 then
    { c with next_state := some 0 }
  else
    c

/-- The apply-phase body of `World::_tick` for one cell. -/
def applyCell (c : Cell) : Cell :=
  if c.next_state == some 1 then { c with alive := true }
  else if c.next_state == some 0 then { c with alive := false }
  else c

/-- `World::_tick` with the two per-cell loops as simultaneous maps.  The
decide loop reads only `alive` fields and writes only `next_state` fields, and
the apply loop touches each cell alone, so the loops are order-independent;
`tickSeq_eq_tick` below proves the explicitly ordered version equal to this
one for every visiting order. -/
def World._tick (w : World) : World :=
  let decided : World :=
    { w with cells := w.cells.map (fun kc =>
        (kc.1, decideCellIn w.cells w.cached_directions kc.2)) }
  let applied : World :=
    { decided with cells := decided.cells.map (fun kc => (kc.1, applyCell kc.2)) }
  { applied with tick := u32Add applied.tick 1 }

/-- In-place update of every entry with key `k` (how the Rust loop's mutation
of one cell reads on the association-list model). -/
def updateCellAt (cells : CellMap) (k : String) (f : Cell → Cell) : CellMap :=
  cells.map (fun kc => if kc.1 == k then (kc.1, f kc.2) else kc)

/-- One decide-loop iteration of `World::_tick`, on the current map state. -/
def decideStep (dirs : List (Int × Int)) (cells : CellMap) (k : String) : CellMap :=
  updateCellAt cells k (fun c => decideCellIn cells dirs c)

/-- One apply-loop iteration of `World::_tick`. -/
def applyStep (cells : CellMap) (k : String) : CellMap :=
  updateCellAt cells k applyCell

/-- `World::_tick` with the two loops' visiting orders made explicit
(`HashMap` iteration order is unspecified, and the two loops need not visit in
the same order). -/
def World.tickSeq (w : World) (order₁ order₂ : List String) : World :=
  let decided := order₁.foldl (decideStep w.cached_directions) w.cells
  let applied := order₂.foldl applyStep decided
  { w with cells := applied, tick := u32Add w.tick 1 }

/-- `World::render`.  The `unwrap` on `cell_at` is modelled by `Option`:
`none` stands for the panic, which never occurs on a reachable world. -/
def World.render (w : World) : Option String :=
  (List.range w.height).foldlM (fun rendering y =>
    ((List.range w.width).foldlM (fun r x =>
        (w.cell_at x y).map (fun cell => r ++ (Cell.to_char cell).toString))
      rendering).map (fun r => r ++ "\n")) ""

/-- The `alive` flag of the cell at `(x, y)` (`false` when absent); a
projection used to state claims. -/
def aliveAt (w : World) (x y : Nat) : Bool :=
  ((w.cell_at x y).map Cell.alive).getD false

/-- One direction probe of `World::neighbours_around` on a fully populated
`width × height` grid: the u32 offset arithmetic followed by the bounds
check (which is what the existence filter amounts to there). -/
def nbrProbe (width height x y : Nat) (set : Int × Int) : Option (Nat × Nat) :=
  let nx := u32Add x (i8ToU32 set.1)
  let ny := u32Add y (i8ToU32 set.2)
  if nx < width ∧ ny < height then some (nx, ny) else none

/-- The neighbour-coordinate list of `(x, y)` in a `width × height` grid:
what `World::neighbours_around` computes. -/
def canonNbrs (width height x y : Nat) : List (Nat × Nat) :=
  theDirections.filterMap (nbrProbe width height x y)

/-- The fully populated grid map: one entry per in-range coordinate, row by
row, the normal form of every reachable world's cell map. -/
def gridCells (width height : Nat) (f : Nat → Nat → Cell) : CellMap :=
  (List.range height).flatMap (fun y =>
    (List.range width).map (fun x => (cellKey x y, f x y)))

/-- Well-formedness: the invariant shape of every reachable world.  The `u32`
bounds come from the Rust types of `width` and `height`; the cell map is the
fully populated grid with correct per-cell coordinates and a filled, correct
neighbour cache, and only `alive`/`next_state` vary per cell. -/
def World.WF (w : World) : Prop :=
  w.width < u32Size ∧ w.height < u32Size ∧ w.cached_directions = theDirections ∧
  ∃ st : Nat → Nat → Bool × Option Nat,
    w.cells = gridCells w.width w.height (fun x y =>
      { x := x, y := y, alive := (st x y).1, next_state := (st x y).2,
        neighbours := some (canonNbrs w.width w.height x y) })

/-- The worlds reachable from construction by `tick()` calls — "every
constructed World" in the claims.  The bounds in `new` are the Rust `u32`
parameter types. -/
inductive World.Reachable : World → Prop where
  | new (width height : Nat) (rng : Nat → Nat → Bool)
      (hw : width < u32Size) (hh : height < u32Size) :
      World.Reachable (World.new width height rng)
  | tick (w : World) (h : World.Reachable w) : World.Reachable w._tick

/-- Spec-side description of the render output (section 6 of the spec): one
line per row `y`, each of exactly `width` characters, `'o'` for alive and
`' '` for dead, each line terminated by a newline.  Compared with
`World.render` in claim C3. -/
def renderSpecString (w : World) : String :=
  String.mk ((List.range w.height).flatMap (fun y =>
    (List.range w.width).map (fun x => if aliveAt w x y then 'o' else ' ') ++ ['\n']))

/-- The pending-slot/alive agreement invariant of claim C9: a pending
`Some(1)` occurs only on a live cell and a pending `Some(0)` only on a dead
one. -/
def pendOK (c : Cell) : Prop :=
  (c.next_state = some 1 → c.alive = true) ∧ (c.next_state = some 0 → c.alive = false)

/-- The per-cell effect of one `tick()`: the decide-phase body (against the
pre-tick map) followed by the apply-phase body. -/
def tickCellFun (w : World) (c : Cell) : Cell :=
  applyCell (decideCellIn w.cells w.cached_directions c)

/-- Decimal decoding, a left inverse of `Nat.toDigits 10` (used to show the
`format!("{}-{}")` keys are injective). -/
def decDigits (cs : List Char) : Nat := cs.foldl (fun a c => a * 10 + (c.toNat - 48)) 0

/-- The blinker test pattern of claim C7: a horizontal 3-cell live segment on
row 2 of an otherwise dead 5×5 grid (all cells outside the segment dead). -/
def blinkRng : Nat → Nat → Bool := fun x y => decide (y = 2 ∧ (x = 1 ∨ x = 2 ∨ x = 3))

/-- The 5×5 world seeded with the blinker. -/
def blinkWorld : World := World.new 5 5 blinkRng

/-- Explicit grid world with given per-cell state, used to spell out the
intermediate blinker states. -/
def mkGridWorld (W H t : Nat) (st : Nat → Nat → Bool × Option Nat) : World :=
  { width := W, height := H, tick := t,
    cells := gridCells W H (fun x y => Cell.mk x y (st x y).1 (st x y).2 (some (canonNbrs W H x y))),
    cached_directions := theDirections }

/-- The blinker world after one tick: the vertical segment, with the pending
slots the decide phase left behind. -/
def blinkSt1 : Nat → Nat → Bool × Option Nat := fun x y =>
  (decide (x = 2 ∧ (y = 1 ∨ y = 2 ∨ y = 3)),
   if x = 2 ∧ (y = 1 ∨ y = 3) then some 1
   else if ((x = 1 ∨ x = 3) ∧ (y = 1 ∨ y = 3)) ∨ (x = 2 ∧ y = 2) then none
   else some 0)

/-- The blinker world after two ticks: the horizontal segment again. -/
def blinkSt2 : Nat → Nat → Bool × Option Nat := fun x y =>
  (decide (y = 2 ∧ (x = 1 ∨ x = 2 ∨ x = 3)),
   if y = 2 ∧ (x = 1 ∨ x = 3) then some 1
   else if ((x = 1 ∨ x = 3) ∧ (y = 1 ∨ y = 3)) ∨ (x = 2 ∧ y = 2) then none
   else some 0)

/-- The per-key `alive` view of a cell map: what the decide phase reads. -/
def aliveProj (m : CellMap) : List (String × Bool) :=
  m.map (fun kc => (kc.1, kc.2.alive))

/-- The observable per-cell state of claim C10: the `alive` flag and the
pending slot. -/
def cellView (c : Cell) : Bool × Option Nat := (c.alive, c.next_state)

/-- A small all-dead constructed world used as a concrete instance. -/
def wit2 : World := World.new 2 2 (fun _ _ => false)

/-- A 3×3 all-dead constructed world used as a concrete instance. -/
def wit3 : World := World.new 3 3 (fun _ _ => false)

/-- The corner cell (0,0) of `wit2`/`wit3` as constructed. -/
def witCell : Cell := Cell.mk 0 0 false none (some [(0, 1), (1, 1), (1, 0)])

/-- The cell (1,1) of `blinkWorld` after one tick. -/
def witCell9 : Cell :=
  Cell.mk 1 1 false none (some [(0, 2), (1, 2), (2, 2), (0, 1), (2, 1), (0, 0), (1, 0), (2, 0)])

/-- `n` successive `tick()` calls. -/
def tickN : Nat → World → World
  | 0, w => w
  | n + 1, w => (tickN n w)._tick

/-! ### Basic lookup lemmas -/

theorem lookup_map_value {β : Type} (f : Cell → β) (k : String) (m : CellMap) :
    List.lookup k (m.map (fun kc => (kc.1, f kc.2))) = (List.lookup k m).map f := by
  induction m with
  | nil => rfl
  | cons kc rest ih =>
    obtain ⟨k', v⟩ := kc
    by_cases h : k = k'
    · subst h; simp [List.lookup_cons]
    · have hb : (k == k') = false := beq_eq_false_iff_ne.mpr h
      simp [List.lookup_cons, ih, hb]

/-- What one `tick()` makes of the cell at `(x, y)`: the apply-phase body
composed with the decide-phase body (decided against the pre-tick map). -/
theorem tick_cell_at (w : World) (x y : Nat) :
    (w._tick).cell_at x y =
      (w.cell_at x y).map (fun c => applyCell (decideCellIn w.cells w.cached_directions c)) := by
  simp only [World._tick, World.cell_at, cellAtIn, lookup_map_value, Option.map_map]
  rfl

theorem foldl_world_proj {β : Type} (proj : World → β) (g : World → Nat → World)
    (h : ∀ w a, proj (g w a) = proj w) (l : List Nat) (w : World) :
    proj (l.foldl g w) = proj w := by
  induction l generalizing w with
  | nil => rfl
  | cons a l ih => rw [List.foldl_cons, ih, h]

theorem populate_cells_width (w : World) (rng : Nat → Nat → Bool) :
    (w.populate_cells rng).width = w.width := by
  unfold World.populate_cells
  apply foldl_world_proj
  intro wy y
  apply foldl_world_proj
  intro wx x
  rfl

theorem populate_cells_height (w : World) (rng : Nat → Nat → Bool) :
    (w.populate_cells rng).height = w.height := by
  unfold World.populate_cells
  apply foldl_world_proj
  intro wy y
  apply foldl_world_proj
  intro wx x
  rfl

theorem populate_cells_tick (w : World) (rng : Nat → Nat → Bool) :
    (w.populate_cells rng).tick = w.tick := by
  unfold World.populate_cells
  apply foldl_world_proj
  intro wy y
  apply foldl_world_proj
  intro wx x
  rfl

theorem populate_cells_dirs (w : World) (rng : Nat → Nat → Bool) :
    (w.populate_cells rng).cached_directions = w.cached_directions := by
  unfold World.populate_cells
  apply foldl_world_proj
  intro wy y
  apply foldl_world_proj
  intro wx x
  rfl

theorem new_width (width height : Nat) (rng : Nat → Nat → Bool) :
    (World.new width height rng).width = width := by
  simp [World.new, World.prepopulate_neighbours, populate_cells_width]

theorem new_height (width height : Nat) (rng : Nat → Nat → Bool) :
    (World.new width height rng).height = height := by
  simp [World.new, World.prepopulate_neighbours, populate_cells_height]

theorem new_dirs (width height : Nat) (rng : Nat → Nat → Bool) :
    (World.new width height rng).cached_directions = theDirections := by
  simp [World.new, World.prepopulate_neighbours, populate_cells_dirs]

theorem tick_width (w : World) : (w._tick).width = w.width := rfl

theorem tick_height (w : World) : (w._tick).height = w.height := rfl

theorem tick_dirs (w : World) : (w._tick).cached_directions = w.cached_directions := rfl

/-! ### Claim C8: the tick counter -/

theorem new_tick (width height : Nat) (rng : Nat → Nat → Bool) :
    (World.new width height rng).tick = 0 := by
  simp [World.new, World.prepopulate_neighbours, populate_cells_tick]

theorem tick_tick_eq (w : World) : (w._tick).tick = (w.tick + 1) % u32Size := rfl

/-- The `u32` tick counter of any reachable world is below `2^32`. -/
theorem reachable_tick_lt (w : World) (hw : w.Reachable) : w.tick < u32Size := by
  induction hw with
  | new width height rng hW hH =>
    rw [new_tick]
    exact Nat.pos_of_ne_zero (by decide)
  | tick w hw ih =>
    rw [tick_tick_eq]
    exact Nat.mod_lt _ (Nat.pos_of_ne_zero (by decide))

theorem tickN_reachable (n : Nat) (w : World) (h : w.Reachable) : (tickN n w).Reachable := by
  induction n with
  | zero => exact h
  | succ n ih => exact World.Reachable.tick _ ih

theorem tickN_tick (n : Nat) (w : World) (hw : w.tick = 0) (hn : n < u32Size) :
    (tickN n w).tick = n := by
  have hs : u32Size = 4294967296 := rfl
  rw [hs] at hn
  induction n with
  | zero => exact hw
  | succ n ih =>
    show ((tickN n w)._tick).tick = n + 1
    rw [tick_tick_eq, ih (by omega), hs]
    omega

/-- C8 counterexample: the tick counter is a Rust `u32`; on the constructed
1×1 world after `2^32 − 1` ticks the counter holds `2^32 − 1`, and the next
`tick()` wraps it to 0 — it does not increase by 1, and it decreases. -/
theorem c8_counterexample :
    (tickN 4294967295 (World.new 1 1 (fun _ _ => true))).tick = 4294967295 ∧
    ((tickN 4294967295 (World.new 1 1 (fun _ _ => true)))._tick).tick = 0 ∧
    ¬ ((tickN 4294967295 (World.new 1 1 (fun _ _ => true)))._tick).tick
        = (tickN 4294967295 (World.new 1 1 (fun _ _ => true))).tick + 1 ∧
    ((tickN 4294967295 (World.new 1 1 (fun _ _ => true)))._tick).tick
      < (tickN 4294967295 (World.new 1 1 (fun _ _ => true))).tick := by
  have hbig : (tickN 4294967295 (World.new 1 1 (fun _ _ => true))).tick = 4294967295 :=
    tickN_tick 4294967295 _ (new_tick 1 1 _) (by decide)
  have hnext : ((tickN 4294967295 (World.new 1 1 (fun _ _ => true)))._tick).tick = 0 := by
    rw [tick_tick_eq, hbig]
    decide
  refine ⟨hbig, hnext, ?_, ?_⟩
  · rw [hnext, hbig]
    decide
  · rw [hnext, hbig]
    decide

/-- C8 amended: the tick counter starts at 0 on every constructed world and
each `tick()` sets it to `(tick + 1) mod 2^32` (the counter is a Rust `u32`
and `self.tick += 1` wraps): the counter increases by exactly 1 — in
particular never decreases — whenever it is below `2^32 − 1`, so over any run
of fewer than `2^32` ticks it equals the number of `tick()` calls made; only
at `2^32 − 1` does it wrap to 0.  `render` does not mutate the world at all:
it is a function of the world returning a string. -/
theorem c8_tick_counter :
    (∀ width height rng, (World.new width height rng).tick = 0) ∧
    (∀ w : World, (w._tick).tick = (w.tick + 1) % u32Size) ∧
    (∀ w : World, w.tick < u32Size - 1 → (w._tick).tick = w.tick + 1) ∧
    (∀ w : World, w.tick < u32Size - 1 → w.tick ≤ (w._tick).tick) ∧
    (∀ n, n < u32Size → ∀ width height rng,
      (tickN n (World.new width height rng)).tick = n) := by
  have hs : u32Size = 4294967296 := rfl
  have hstep : ∀ w : World, w.tick < u32Size - 1 → (w._tick).tick = w.tick + 1 := by
    intro w hw
    rw [tick_tick_eq, hs]
    rw [hs] at hw
    omega
  refine ⟨new_tick, fun w => tick_tick_eq w, hstep, fun w hw => ?_, ?_⟩
  · rw [hstep w hw]
    exact Nat.le_succ _
  · intro n hn width height rng
    exact tickN_tick n _ (new_tick width height rng) hn

/-! ### Claim C2: the pending slot after a tick -/

/-- C2 counterexample: in a 1×1 world holding one live cell, the single cell's
pending slot holds `Some(0)` after one `tick()` — it is not cleared.  (The
cell is alive with 0 alive neighbours, so the decide phase stores `Some(0)`;
the apply phase reads the slot but never resets it.) -/
theorem c2_counterexample :
    ((World.new 1 1 (fun _ _ => true))._tick.cell_at 0 0).map Cell.next_state =
        some (some 0) ∧
      ¬ ((World.new 1 1 (fun _ _ => true))._tick.cell_at 0 0).map Cell.next_state =
        some none := by
  constructor
  · decide
  · decide

/-- The apply phase never touches the pending slot. -/
theorem applyCell_next_state (c : Cell) : (applyCell c).next_state = c.next_state := by
  unfold applyCell
  split
  · rfl
  · split <;> rfl

/-- C2 amended: the apply phase sets `alive` from a pending value but leaves
the pending slot unchanged; hence after `tick()` a cell's pending slot holds
the value the decide phase just assigned (`Some(1)` for a dead cell with
exactly 3 alive neighbours, `Some(0)` when the neighbour count is below 2 or
above 3), and otherwise whatever it held before the tick — not `None`. -/
theorem c2_pending_after_tick (w : World) (x y : Nat) (c : Cell)
    (h : w.cell_at x y = some c) :
    (applyCell c).next_state = c.next_state ∧
    ((w._tick).cell_at x y).map Cell.next_state = some (
      if !c.alive && w.alive_neighbours_around c == 3 then some 1
      else if w.alive_neighbours_around c < 2 || w.alive_neighbours_around c > 3 then some 0
      else c.next_state) := by
  refine ⟨applyCell_next_state c, ?_⟩
  rw [tick_cell_at, h]
  simp only [Option.map_some', applyCell_next_state]
  unfold decideCellIn World.alive_neighbours_around
  by_cases h1 : (!c.alive && aliveNeighboursAroundIn w.cells w.cached_directions c == 3) = true
  · rw [if_pos h1, if_pos h1]
    rfl
  · rw [if_neg h1, if_neg h1]
    by_cases h2 : (aliveNeighboursAroundIn w.cells w.cached_directions c < 2 ||
        aliveNeighboursAroundIn w.cells w.cached_directions c > 3) = true
    · rw [if_pos h2, if_pos h2]
    · rw [if_neg h2, if_neg h2]

/-! ### Decimal keys: `Nat.repr` strings are dash-free and injective, hence
the `format!("{}-{}")` keys identify coordinates uniquely. -/

theorem digitChar_isDigit (m : Nat) (h : m < 10) : (Nat.digitChar m).isDigit = true := by
  interval_cases m <;> decide

theorem digitChar_val (m : Nat) (h : m < 10) : (Nat.digitChar m).toNat - 48 = m := by
  interval_cases m <;> decide

theorem toDigitsCore_digits (fuel : Nat) :
    ∀ (n : Nat) (ds : List Char), (∀ c ∈ ds, c.isDigit = true) →
      ∀ c ∈ Nat.toDigitsCore 10 fuel n ds, c.isDigit = true := by
  induction fuel with
  | zero => intro n ds hds; exact hds
  | succ fuel ih =>
    intro n ds hds c hc
    simp only [Nat.toDigitsCore] at hc
    have hdig : ∀ c ∈ Nat.digitChar (n % 10) :: ds, c.isDigit = true := by
      intro c hc
      rcases List.mem_cons.mp hc with h | h
      · subst h; exact digitChar_isDigit _ (Nat.mod_lt _ (by decide))
      · exact hds c h
    by_cases h0 : n / 10 = 0
    · rw [if_pos h0] at hc
      exact hdig c hc
    · rw [if_neg h0] at hc
      exact ih (n / 10) _ hdig c hc

theorem toDigits_ne_dash (n : Nat) : ∀ c ∈ Nat.toDigits 10 n, c ≠ '-' := by
  intro c hc
  have : c.isDigit = true := toDigitsCore_digits _ _ [] (by simp) c hc
  intro h
  subst h
  simp at this

theorem toDigitsCore_acc (fuel : Nat) :
    ∀ (n : Nat) (ds : List Char),
      Nat.toDigitsCore 10 fuel n ds = Nat.toDigitsCore 10 fuel n [] ++ ds := by
  induction fuel with
  | zero => intro n ds; simp [Nat.toDigitsCore]
  | succ fuel ih =>
    intro n ds
    simp only [Nat.toDigitsCore]
    by_cases h0 : n / 10 = 0
    · simp [h0]
    · rw [if_neg h0, if_neg h0, ih (n / 10) (Nat.digitChar (n % 10) :: ds),
        ih (n / 10) [Nat.digitChar (n % 10)]]
      simp

theorem toDigitsCore_fuel (f₁ : Nat) :
    ∀ (f₂ n : Nat), n < f₁ → n < f₂ →
      Nat.toDigitsCore 10 f₁ n [] = Nat.toDigitsCore 10 f₂ n [] := by
  induction f₁ with
  | zero => omega
  | succ f₁ ih =>
    intro f₂ n h₁ h₂
    cases f₂ with
    | zero => omega
    | succ f₂ =>
      simp only [Nat.toDigitsCore]
      by_cases h0 : n / 10 = 0
      · simp [h0]
      · rw [if_neg h0, if_neg h0, toDigitsCore_acc f₁, toDigitsCore_acc f₂,
          ih f₂ (n / 10) (by omega) (by omega)]

theorem toDigits_small (n : Nat) (h : n < 10) : Nat.toDigits 10 n = [Nat.digitChar n] := by
  have h0 : n / 10 = 0 := by omega
  simp only [Nat.toDigits, Nat.toDigitsCore, h0, if_pos]
  rw [Nat.mod_eq_of_lt h]

theorem toDigits_step (n : Nat) (h : 10 ≤ n) :
    Nat.toDigits 10 n = Nat.toDigits 10 (n / 10) ++ [Nat.digitChar (n % 10)] := by
  have h0 : ¬ n / 10 = 0 := by omega
  calc Nat.toDigits 10 n
      = (if n / 10 = 0 then [Nat.digitChar (n % 10)]
          else Nat.toDigitsCore 10 n (n / 10) [Nat.digitChar (n % 10)]) := rfl
    _ = Nat.toDigitsCore 10 n (n / 10) [Nat.digitChar (n % 10)] := if_neg h0
    _ = Nat.toDigitsCore 10 n (n / 10) [] ++ [Nat.digitChar (n % 10)] := toDigitsCore_acc _ _ _
    _ = Nat.toDigitsCore 10 (n / 10 + 1) (n / 10) [] ++ [Nat.digitChar (n % 10)] := by
        rw [toDigitsCore_fuel n (n / 10 + 1) (n / 10) (by omega) (by omega)]
    _ = Nat.toDigits 10 (n / 10) ++ [Nat.digitChar (n % 10)] := rfl

theorem decDigits_toDigits (n : Nat) : decDigits (Nat.toDigits 10 n) = n := by
  induction n using Nat.strong_induction_on with
  | _ n ih =>
    by_cases h : n < 10
    · rw [toDigits_small n h]
      simp only [decDigits, List.foldl_cons, List.foldl_nil, Nat.zero_mul, Nat.zero_add]
      exact digitChar_val n h
    · rw [toDigits_step n (by omega)]
      have hrec := ih (n / 10) (by omega)
      unfold decDigits at hrec ⊢
      rw [List.foldl_append, hrec]
      simp only [List.foldl_cons, List.foldl_nil]
      rw [digitChar_val _ (Nat.mod_lt _ (by decide))]
      omega

theorem toDigits_inj (m n : Nat) (h : Nat.toDigits 10 m = Nat.toDigits 10 n) : m = n := by
  rw [← decDigits_toDigits m, ← decDigits_toDigits n, h]

theorem append_dash_inj (a : List Char) :
    ∀ (c : List Char) (b d : List Char), (∀ z ∈ a, z ≠ '-') → (∀ z ∈ c, z ≠ '-') →
      a ++ '-' :: b = c ++ '-' :: d → a = c ∧ b = d := by
  induction a with
  | nil =>
    intro c b d _ hc h
    cases c with
    | nil => simpa using h
    | cons z cs =>
      simp only [List.nil_append, List.cons_append, List.cons.injEq] at h
      exact absurd h.1.symm (hc z (by simp))
  | cons x as ih =>
    intro c b d ha hc h
    cases c with
    | nil =>
      simp only [List.nil_append, List.cons_append, List.cons.injEq] at h
      exact absurd h.1 (ha x (by simp))
    | cons z cs =>
      simp only [List.cons_append, List.cons.injEq] at h
      obtain ⟨rfl, h2⟩ := h
      obtain ⟨h3, h4⟩ := ih cs b d (fun u hu => ha u (by simp [hu])) (fun u hu => hc u (by simp [hu])) h2
      exact ⟨by rw [h3], h4⟩

theorem cellKey_data (a b : Nat) :
    (cellKey a b).data = Nat.toDigits 10 a ++ '-' :: Nat.toDigits 10 b := by
  show ((Nat.repr a ++ "-") ++ Nat.repr b).data = _
  rw [String.data_append, String.data_append]
  show (Nat.toDigits 10 a ++ ['-']) ++ Nat.toDigits 10 b = _
  simp

/-- Distinct coordinates have distinct `format!("{}-{}")` keys. -/
theorem cellKey_inj (x y x' y' : Nat) (h : cellKey x y = cellKey x' y') :
    x = x' ∧ y = y' := by
  have hd : (cellKey x y).data = (cellKey x' y').data := congrArg String.data h
  rw [cellKey_data, cellKey_data] at hd
  obtain ⟨h1, h2⟩ := append_dash_inj _ _ _ _ (toDigits_ne_dash x) (toDigits_ne_dash x') hd
  exact ⟨toDigits_inj _ _ h1, toDigits_inj _ _ h2⟩

/-! ### Lookup in the populated grid -/

theorem lookup_map_row (x y y' : Nat) (f : Nat → Nat → Cell) (xs : List Nat) :
    List.lookup (cellKey x y) (xs.map (fun x' => (cellKey x' y', f x' y'))) =
      if x ∈ xs ∧ y = y' then some (f x y') else none := by
  induction xs with
  | nil => simp
  | cons a l ih =>
    simp only [List.map_cons, List.lookup_cons]
    by_cases hk : cellKey x y = cellKey a y'
    · obtain ⟨rfl, rfl⟩ := cellKey_inj _ _ _ _ hk
      simp
    · have hb : (cellKey x y == cellKey a y') = false := beq_eq_false_iff_ne.mpr hk
      have hne : ¬(x = a ∧ y = y') := by
        rintro ⟨rfl, rfl⟩
        exact hk rfl
      rw [hb, ih]
      by_cases hmem : x ∈ l ∧ y = y'
      · rw [if_pos hmem, if_pos ⟨List.mem_cons_of_mem a hmem.1, hmem.2⟩]
      · rw [if_neg hmem, if_neg]
        rintro ⟨hm, rfl⟩
        rcases List.mem_cons.mp hm with rfl | hm
        · exact hne ⟨rfl, rfl⟩
        · exact hmem ⟨hm, rfl⟩

theorem lookup_gridCells (W H x y : Nat) (f : Nat → Nat → Cell) :
    List.lookup (cellKey x y) (gridCells W H f) =
      if x < W ∧ y < H then some (f x y) else none := by
  unfold gridCells
  induction H with
  | zero => simp
  | succ H ih =>
    rw [List.range_succ, List.flatMap_append, List.lookup_append, ih]
    simp only [List.flatMap_cons, List.flatMap_nil, List.append_nil]
    rw [lookup_map_row]
    by_cases hy : y = H
    · subst hy
      by_cases hx : x < W <;> simp [List.mem_range, Nat.lt_irrefl, hx]
    · by_cases hin : x < W ∧ y < H
      · simp [hin, Nat.lt_succ_of_lt hin.2]
      · have : ¬(x < W ∧ y < H + 1) := by
          rintro ⟨h1, h2⟩
          exact hin ⟨h1, by omega⟩
        simp [hin, hy, this]

theorem mem_gridCells (W H : Nat) (f : Nat → Nat → Cell) (kc : String × Cell)
    (h : kc ∈ gridCells W H f) : ∃ x, x < W ∧ ∃ y, y < H ∧ kc = (cellKey x y, f x y) := by
  simp only [gridCells, List.mem_flatMap, List.mem_map, List.mem_range] at h
  obtain ⟨y, hy, x, hx, rfl⟩ := h
  exact ⟨x, hx, y, hy, rfl⟩

/-! ### `populate_cells` builds exactly the grid -/

theorem insertCell_fresh (m : CellMap) (k : String) (c : Cell)
    (h : ∀ kc ∈ m, kc.1 ≠ k) : insertCell m k c = m ++ [(k, c)] := by
  unfold insertCell
  rw [if_neg]
  simp only [List.any_eq_true, not_exists]
  intro kc
  rw [not_and]
  intro hkc hb
  exact h kc hkc (by simpa using hb)

theorem foldl_insert_row (y W : Nat) (rng : Nat → Nat → Bool) (m : CellMap)
    (hfresh : ∀ kc ∈ m, ∀ x, x < W → kc.1 ≠ cellKey x y) :
    (List.range W).foldl
        (fun m' x => insertCell m' (cellKey x y) (Cell.new x y (rng x y))) m
      = m ++ (List.range W).map (fun x => (cellKey x y, Cell.new x y (rng x y))) := by
  induction W with
  | zero => simp
  | succ W ih =>
    rw [List.range_succ, List.foldl_append, List.foldl_cons, List.foldl_nil,
      ih (fun kc hkc x hx => hfresh kc hkc x (Nat.lt_succ_of_lt hx)), insertCell_fresh]
    · simp [List.range_succ]
    · intro kc hkc
      rcases List.mem_append.mp hkc with hm | hrow
      · exact hfresh kc hm W (Nat.lt_succ_self W)
      · obtain ⟨x, hx, rfl⟩ := by simpa using hrow
        intro hk
        have := (cellKey_inj _ _ _ _ hk).1
        omega

theorem foldl_insert_grid (H W : Nat) (rng : Nat → Nat → Bool) (m : CellMap)
    (hfresh : ∀ kc ∈ m, ∀ x, x < W → ∀ y, y < H → kc.1 ≠ cellKey x y) :
    (List.range H).foldl
        (fun my y => (List.range W).foldl
          (fun m' x => insertCell m' (cellKey x y) (Cell.new x y (rng x y))) my) m
      = m ++ gridCells W H (fun x y => Cell.new x y (rng x y)) := by
  induction H with
  | zero => simp [gridCells]
  | succ H ih =>
    rw [List.range_succ, List.foldl_append, List.foldl_cons, List.foldl_nil,
      ih (fun kc hkc x hx y hy => hfresh kc hkc x hx y (Nat.lt_succ_of_lt hy)),
      foldl_insert_row]
    · simp only [gridCells, List.range_succ, List.flatMap_append, List.flatMap_cons,
        List.flatMap_nil, List.append_nil, List.append_assoc]
    · intro kc hkc x hx
      rcases List.mem_append.mp hkc with hm | hgrid
      · exact hfresh kc hm x hx H (Nat.lt_succ_self H)
      · obtain ⟨x', hx', y', hy', rfl⟩ := mem_gridCells _ _ _ _ hgrid
        intro hk
        have := (cellKey_inj _ _ _ _ hk).2
        omega

theorem foldl_add_cell_cells (y : Nat) (rng : Nat → Nat → Bool) (xs : List Nat) (w : World) :
    (xs.foldl (fun wx x => wx.add_cell x y (rng x y)) w).cells
      = xs.foldl (fun m x => insertCell m (cellKey x y) (Cell.new x y (rng x y))) w.cells := by
  induction xs generalizing w with
  | nil => rfl
  | cons a l ih =>
    rw [List.foldl_cons, List.foldl_cons]
    exact ih (w.add_cell a y (rng a y))

theorem foldl_rows_cells (w : World) (rng : Nat → Nat → Bool) (ys : List Nat) :
    ∀ wy : World,
      ((ys.foldl (fun wy y =>
          (List.range w.width).foldl (fun wx x => wx.add_cell x y (rng x y)) wy) wy)).cells
        = ys.foldl (fun m y =>
            (List.range w.width).foldl
              (fun m' x => insertCell m' (cellKey x y) (Cell.new x y (rng x y))) m) wy.cells := by
  induction ys with
  | nil => intro wy; rfl
  | cons a l ih =>
    intro wy
    rw [List.foldl_cons, List.foldl_cons, ih, foldl_add_cell_cells]

theorem populate_cells_cells (w : World) (rng : Nat → Nat → Bool)
    (hfresh : ∀ kc ∈ w.cells, ∀ x, x < w.width → ∀ y, y < w.height → kc.1 ≠ cellKey x y) :
    (w.populate_cells rng).cells
      = w.cells ++ gridCells w.width w.height (fun x y => Cell.new x y (rng x y)) := by
  unfold World.populate_cells
  rw [foldl_rows_cells, foldl_insert_grid w.height w.width rng w.cells hfresh]

/-! ### Canonical form of a freshly constructed world -/

theorem gridCells_map (W H : Nat) (f : Nat → Nat → Cell) (g : Cell → Cell) :
    (gridCells W H f).map (fun kc => (kc.1, g kc.2)) = gridCells W H (fun x y => g (f x y)) := by
  unfold gridCells
  rw [List.map_flatMap]
  refine congrArg _ (funext fun y => ?_)
  rw [List.map_map]
  rfl

theorem computeNeighbours_canon (W H : Nat) (f : Nat → Nat → Cell) (c : Cell) :
    computeNeighboursIn (gridCells W H f) theDirections c = canonNbrs W H c.x c.y := by
  unfold computeNeighboursIn canonNbrs
  congr 1
  funext set
  unfold nbrProbe
  simp only [cellAtIn, lookup_gridCells]
  by_cases h : u32Add c.x (i8ToU32 set.1) < W ∧ u32Add c.y (i8ToU32 set.2) < H
  · rw [if_pos h, if_pos h]
    rfl
  · rw [if_neg h, if_neg h]
    rfl

theorem new_cells (W H : Nat) (rng : Nat → Nat → Bool) :
    (World.new W H rng).cells = gridCells W H (fun x y =>
      { x := x, y := y, alive := rng x y, next_state := none,
        neighbours := some (canonNbrs W H x y) }) := by
  have hnew : World.new W H rng = (World.populate_cells
      { width := W, height := H, tick := 0, cells := [], cached_directions := theDirections }
      rng).prepopulate_neighbours := rfl
  have hcells : (World.populate_cells
      { width := W, height := H, tick := 0, cells := [], cached_directions := theDirections }
      rng).cells = gridCells W H (fun x y => Cell.new x y (rng x y)) := by
    rw [populate_cells_cells]
    · exact List.nil_append _
    · intro kc hkc
      simp at hkc
  have hdirs : (World.populate_cells
      { width := W, height := H, tick := 0, cells := [], cached_directions := theDirections }
      rng).cached_directions = theDirections := populate_cells_dirs _ _
  rw [hnew]
  unfold World.prepopulate_neighbours
  simp only
  rw [hcells, hdirs]
  refine Eq.trans (gridCells_map W H (fun x y => Cell.new x y (rng x y))
    (fun c => Cell.mk c.x c.y c.alive c.next_state (some (neighboursAroundIn
      (gridCells W H fun x y => Cell.new x y (rng x y)) theDirections c)))) ?_
  refine congrArg _ (funext fun x => funext fun y => ?_)
  exact congrArg (fun nb => Cell.mk x y (rng x y) none (some nb))
    (computeNeighbours_canon W H (fun x y => Cell.new x y (rng x y)) (Cell.new x y (rng x y)))

/-! ### One tick preserves the canonical form -/

theorem tick_cells (w : World) :
    (w._tick).cells = w.cells.map (fun kc => (kc.1, tickCellFun w kc.2)) :=
  List.map_map _ _ _

theorem decideCellIn_unfold (cells : CellMap) (dirs : List (Int × Int)) (c : Cell) :
    decideCellIn cells dirs c =
      if !c.alive && aliveNeighboursAroundIn cells dirs c == 3 then
        c.next_state_is (some 1)
      else if aliveNeighboursAroundIn cells dirs c < 2 || aliveNeighboursAroundIn cells dirs c > 3 then
        { c with next_state := some 0 }
      else c := rfl

theorem decideCellIn_shape (cells : CellMap) (dirs : List (Int × Int)) (c : Cell) :
    ∃ p, decideCellIn cells dirs c = { c with next_state := p } := by
  rw [decideCellIn_unfold]
  split
  · exact ⟨some 1, rfl⟩
  · split
    · exact ⟨some 0, rfl⟩
    · exact ⟨c.next_state, rfl⟩

theorem applyCell_shape (c : Cell) : ∃ a, applyCell c = { c with alive := a } := by
  unfold applyCell
  split
  · exact ⟨true, rfl⟩
  · split
    · exact ⟨false, rfl⟩
    · exact ⟨c.alive, rfl⟩

theorem tickCellFun_shape (w : World) (c : Cell) :
    ∃ a p, tickCellFun w c = { c with alive := a, next_state := p } := by
  obtain ⟨p, hp⟩ := decideCellIn_shape w.cells w.cached_directions c
  obtain ⟨a, ha⟩ := applyCell_shape { c with next_state := p }
  refine ⟨a, p, ?_⟩
  unfold tickCellFun
  rw [hp, ha]

theorem tick_WF (w : World) (h : w.WF) : (w._tick).WF := by
  obtain ⟨hW, hH, hdirs, st, hcells⟩ := h
  refine ⟨hW, hH, hdirs, ?_⟩
  refine ⟨fun x y => ((tickCellFun w (Cell.mk x y (st x y).1 (st x y).2 (some (canonNbrs w.width w.height x y)))).alive, (tickCellFun w (Cell.mk x y (st x y).1 (st x y).2 (some (canonNbrs w.width w.height x y)))).next_state), ?_⟩
  show (w._tick).cells = gridCells w.width w.height _
  rw [tick_cells, hcells]
  refine Eq.trans (gridCells_map _ _ _ (tickCellFun w)) ?_
  refine congrArg _ (funext fun x => funext fun y => ?_)
  show tickCellFun w (Cell.mk x y (st x y).1 (st x y).2 (some (canonNbrs w.width w.height x y))) = Cell.mk x y (tickCellFun w (Cell.mk x y (st x y).1 (st x y).2 (some (canonNbrs w.width w.height x y)))).alive (tickCellFun w (Cell.mk x y (st x y).1 (st x y).2 (some (canonNbrs w.width w.height x y)))).next_state (some (canonNbrs w.width w.height x y))
  obtain ⟨a, p, hap⟩ := tickCellFun_shape w
    (Cell.mk x y (st x y).1 (st x y).2 (some (canonNbrs w.width w.height x y)))
  rw [hap]

theorem new_WF (W H : Nat) (rng : Nat → Nat → Bool) (hW : W < u32Size) (hH : H < u32Size) :
    (World.new W H rng).WF := by
  refine ⟨?_, ?_, ?_, ?_⟩
  · rw [new_width]; exact hW
  · rw [new_height]; exact hH
  · rw [new_dirs]
  · refine ⟨fun x y => (rng x y, none), ?_⟩
    rw [new_cells, new_width, new_height]

theorem World.Reachable.wf {w : World} (h : w.Reachable) : w.WF := by
  induction h with
  | new W H rng hW hH => exact new_WF W H rng hW hH
  | tick w h ih => exact tick_WF w ih

/-! ### `cell_at` on a well-formed world -/

theorem WF_cell_at (w : World) (h : w.WF) (x y : Nat) (hx : x < w.width) (hy : y < w.height) :
    ∃ c : Cell, w.cell_at x y = some c ∧ c.x = x ∧ c.y = y ∧
      c.neighbours = some (canonNbrs w.width w.height x y) := by
  obtain ⟨-, -, -, st, hcells⟩ := h
  have hsome : w.cell_at x y = some (Cell.mk x y (st x y).1 (st x y).2
      (some (canonNbrs w.width w.height x y))) := by
    show List.lookup _ w.cells = _
    rw [hcells, lookup_gridCells, if_pos ⟨hx, hy⟩]
  exact ⟨_, hsome, rfl, rfl, rfl⟩

theorem WF_cell_at_none (w : World) (h : w.WF) (x y : Nat)
    (hxy : ¬(x < w.width ∧ y < w.height)) : w.cell_at x y = none := by
  obtain ⟨-, -, -, st, hcells⟩ := h
  show List.lookup _ w.cells = none
  rw [hcells, lookup_gridCells, if_neg hxy]

theorem WF_cell_at_some (w : World) (h : w.WF) (x y : Nat) (c : Cell)
    (hc : w.cell_at x y = some c) :
    x < w.width ∧ y < w.height ∧ c.x = x ∧ c.y = y ∧
      c.neighbours = some (canonNbrs w.width w.height x y) := by
  by_cases hxy : x < w.width ∧ y < w.height
  · obtain ⟨c', hc', h1, h2, h3⟩ := WF_cell_at w h x y hxy.1 hxy.2
    rw [hc'] at hc
    obtain rfl := Option.some.inj hc
    exact ⟨hxy.1, hxy.2, h1, h2, h3⟩
  · rw [WF_cell_at_none w h x y hxy] at hc
    cases hc

/-! ### u32 offset arithmetic never wraps into the grid -/

theorem wrap_in_range (W : Nat) (hW : W < u32Size) (x : Nat) (hx : x < W) (d : Int)
    (hd : d = -1 ∨ d = 0 ∨ d = 1) :
    (u32Add x (i8ToU32 d) < W) ↔ (0 ≤ (x : Int) + d ∧ (x : Int) + d < (W : Int)) := by
  have e1 : i8ToU32 (-1) = 4294967295 := rfl
  have e2 : i8ToU32 0 = 0 := rfl
  have e3 : i8ToU32 1 = 1 := rfl
  have hs : u32Size = 4294967296 := rfl
  rcases hd with rfl | rfl | rfl
  · rw [e1]; unfold u32Add; rw [hs]; rw [hs] at hW; omega
  · rw [e2]; unfold u32Add; rw [hs]; rw [hs] at hW; omega
  · rw [e3]; unfold u32Add; rw [hs]; rw [hs] at hW; omega

theorem mem_theDirections (d : Int × Int)
    (hd : d ∈ theDirections) :
    (d.1 = -1 ∨ d.1 = 0 ∨ d.1 = 1) ∧ (d.2 = -1 ∨ d.2 = 0 ∨ d.2 = 1) := by
  simp only [theDirections, List.mem_cons, List.not_mem_nil, or_false] at hd
  rcases hd with rfl | rfl | rfl | rfl | rfl | rfl | rfl | rfl <;> refine ⟨?_, ?_⟩ <;> simp

/-- C4: `cell_at` is `Some` exactly on `[0,width) × [0,height)`, and for
neighbour-offset arithmetic at any in-range cell, the (wrapping) u32 offset
lookup succeeds exactly when the ideal integer neighbour coordinate is in
range — never by wrapping to the opposite edge. -/
theorem c4_cell_at_bounds (w : World) (hw : w.Reachable) :
    (∀ x y, (w.cell_at x y).isSome = true ↔ (x < w.width ∧ y < w.height)) ∧
    (∀ x y, x < w.width → y < w.height →
      ∀ d ∈ w.cached_directions,
        ((w.cell_at (u32Add x (i8ToU32 d.1)) (u32Add y (i8ToU32 d.2))).isSome = true ↔
          (0 ≤ (x : Int) + d.1 ∧ (x : Int) + d.1 < (w.width : Int) ∧
            0 ≤ (y : Int) + d.2 ∧ (y : Int) + d.2 < (w.height : Int)))) := by
  obtain ⟨hW, hH, hdirs, hst⟩ := hw.wf
  have hwf : w.WF := ⟨hW, hH, hdirs, hst⟩
  have hmem : ∀ x y, (w.cell_at x y).isSome = true ↔ (x < w.width ∧ y < w.height) := by
    intro x y
    constructor
    · intro hs
      obtain ⟨c, hc⟩ := Option.isSome_iff_exists.mp hs
      have h := WF_cell_at_some w hwf x y c hc
      exact ⟨h.1, h.2.1⟩
    · rintro ⟨hx, hy⟩
      obtain ⟨c, hc, -⟩ := WF_cell_at w hwf x y hx hy
      rw [hc]
      rfl
  refine ⟨hmem, fun x y hx hy d hd => ?_⟩
  rw [hdirs] at hd
  obtain ⟨hd1, hd2⟩ := mem_theDirections d hd
  rw [hmem, wrap_in_range w.width hW x hx d.1 hd1, wrap_in_range w.height hH y hy d.2 hd2]
  constructor
  · rintro ⟨⟨a, b⟩, c, e⟩
    exact ⟨a, b, c, e⟩
  · rintro ⟨a, b, c, e⟩
    exact ⟨⟨a, b⟩, c, e⟩

/-! ### Exactly one cell per coordinate -/

theorem countP_row (x y y' : Nat) (f : Nat → Nat → Cell) (xs : List Nat) (hnd : xs.Nodup) :
    ((xs.map (fun x' => (cellKey x' y', f x' y'))).countP (fun kc => kc.1 == cellKey x y))
      = if x ∈ xs ∧ y = y' then 1 else 0 := by
  induction xs with
  | nil => simp
  | cons a l ih =>
    obtain ⟨hal, hl⟩ := List.nodup_cons.mp hnd
    rw [List.map_cons, List.countP_cons, ih hl]
    by_cases hk : cellKey a y' = cellKey x y
    · obtain ⟨rfl, rfl⟩ := cellKey_inj _ _ _ _ hk
      have hnotl : ¬(a ∈ l ∧ y' = y') := fun h => hal h.1
      simp [hnotl, hal]
    · have hb : ((cellKey a y', f a y').1 == cellKey x y) = false :=
        beq_eq_false_iff_ne.mpr hk
      have hne : ¬(x = a ∧ y = y') := by
        rintro ⟨rfl, rfl⟩
        exact hk rfl
      rw [hb]
      simp only [Bool.false_eq_true, if_false, Nat.add_zero]
      by_cases hmem : x ∈ l ∧ y = y'
      · rw [if_pos hmem, if_pos ⟨List.mem_cons_of_mem a hmem.1, hmem.2⟩]
      · rw [if_neg hmem, if_neg]
        rintro ⟨hm, rfl⟩
        rcases List.mem_cons.mp hm with rfl | hm
        · exact hne ⟨rfl, rfl⟩
        · exact hmem ⟨hm, rfl⟩

theorem countP_gridCells (W H x y : Nat) (f : Nat → Nat → Cell) :
    (gridCells W H f).countP (fun kc => kc.1 == cellKey x y)
      = if x < W ∧ y < H then 1 else 0 := by
  unfold gridCells
  induction H with
  | zero => simp
  | succ H ih =>
    rw [List.range_succ, List.flatMap_append, List.countP_append, ih]
    simp only [List.flatMap_cons, List.flatMap_nil, List.append_nil]
    rw [countP_row x y H f _ (List.nodup_range W)]
    simp only [List.mem_range]
    by_cases hy : y = H
    · subst hy
      have h1 : ¬(x < W ∧ y < y) := by omega
      by_cases hx : x < W
      · simp [h1, hx]
      · have h2 : ¬(x < W ∧ y < y + 1) := by omega
        simp [h1, hx, h2]
    · by_cases hin : x < W ∧ y < H
      · have h2 : x < W ∧ y < H + 1 := ⟨hin.1, by omega⟩
        simp [hin, h2, hy]
      · have h2 : ¬(x < W ∧ y < H + 1) := by
          rintro ⟨ha, hb⟩
          exact hin ⟨ha, by omega⟩
        simp [hin, h2, hy]

/-- C6: on every constructed world (width, height ≥ 1), each in-range
coordinate has exactly one entry in the cell map (and the decimal string keys
are injective, so distinct coordinates have distinct entries), and `tick()`
preserves the key set exactly; `render` does not mutate the world at all (it
is a function of the world producing a string). -/
theorem c6_unique_mapping (w : World) (hw : w.Reachable)
    (h1 : 1 ≤ w.width) (h2 : 1 ≤ w.height) :
    (∀ x y, x < w.width → y < w.height →
      w.cells.countP (fun kc => kc.1 == cellKey x y) = 1) ∧
    (∀ x y x' y' : Nat, cellKey x y = cellKey x' y' → x = x' ∧ y = y') ∧
    (w._tick).cells.map Prod.fst = w.cells.map Prod.fst := by
  obtain ⟨hW, hH, hdirs, st, hcells⟩ := hw.wf
  refine ⟨fun x y hx hy => ?_, cellKey_inj, ?_⟩
  · rw [hcells, countP_gridCells, if_pos ⟨hx, hy⟩]
  · rw [tick_cells, List.map_map]
    rfl

/-! ### Rendering -/

theorem string_mk_append (a b : List Char) : String.mk a ++ String.mk b = String.mk (a ++ b) :=
  rfl

theorem char_toString (ch : Char) : ch.toString = String.mk [ch] := rfl

theorem to_char_eq (w : World) (x y : Nat) (c : Cell) (hc : w.cell_at x y = some c) :
    Cell.to_char c = if aliveAt w x y then 'o' else ' ' := by
  unfold Cell.to_char aliveAt
  rw [hc]
  rfl

theorem render_row (w : World) (y : Nat) (xs : List Nat)
    (hex : ∀ x ∈ xs, (w.cell_at x y).isSome = true) :
    ∀ acc : String,
      xs.foldlM (fun r x => (w.cell_at x y).map (fun cell => r ++ (Cell.to_char cell).toString)) acc
        = some (acc ++ String.mk (xs.map (fun x => if aliveAt w x y then 'o' else ' '))) := by
  induction xs with
  | nil =>
    intro acc
    rw [List.foldlM_nil, List.map_nil]
    rw [show String.mk [] = "" from rfl, String.append_empty]
    rfl
  | cons a l ih =>
    intro acc
    obtain ⟨c, hc⟩ := Option.isSome_iff_exists.mp (hex a (List.mem_cons_self a l))
    rw [List.foldlM_cons, hc]
    show ((some (acc ++ (Cell.to_char c).toString)).bind fun r => l.foldlM _ r) = _
    rw [Option.some_bind, ih (fun x hx => hex x (List.mem_cons_of_mem a hx))]
    rw [to_char_eq w a y c hc, char_toString, List.map_cons, String.append_assoc,
      string_mk_append]
    rfl

theorem render_rows (w : World) (ys : List Nat)
    (hex : ∀ y ∈ ys, ∀ x, x < w.width → (w.cell_at x y).isSome = true) :
    ∀ acc : String,
      ys.foldlM (fun rendering y =>
        ((List.range w.width).foldlM (fun r x =>
            (w.cell_at x y).map (fun cell => r ++ (Cell.to_char cell).toString))
          rendering).map (fun r => r ++ "\n")) acc
        = some (acc ++ String.mk (ys.flatMap (fun y =>
            (List.range w.width).map (fun x => if aliveAt w x y then 'o' else ' ') ++ ['\n']))) := by
  induction ys with
  | nil =>
    intro acc
    rw [List.foldlM_nil, List.flatMap_nil]
    rw [show String.mk [] = "" from rfl, String.append_empty]
    rfl
  | cons a l ih =>
    intro acc
    rw [List.foldlM_cons]
    rw [render_row w a (List.range w.width)
      (fun x hx => hex a (List.mem_cons_self a l) x (List.mem_range.mp hx)) acc]
    show ((some ((acc ++ String.mk _) ++ "\n")).bind fun r => l.foldlM _ r) = _
    rw [Option.some_bind, ih (fun y hy => hex y (List.mem_cons_of_mem a hy))]
    rw [show ("\n" : String) = String.mk ['\n'] from rfl, List.flatMap_cons,
      String.append_assoc, String.append_assoc, string_mk_append, string_mk_append,
      List.append_assoc]
    rfl

/-- C3: on every constructed world, `render()` succeeds and returns exactly
`height` newline-terminated lines in row order, each of exactly `width`
characters, `'o'` for an alive cell and `' '` for a dead one
(`renderSpecString` spells out that shape). -/
theorem c3_render_shape (w : World) (hw : w.Reachable) :
    w.render = some (renderSpecString w) := by
  have hwf := hw.wf
  have hex : ∀ y ∈ List.range w.height, ∀ x, x < w.width → (w.cell_at x y).isSome = true := by
    intro y hy x hx
    obtain ⟨c, hc, -⟩ := WF_cell_at w hwf x y hx (List.mem_range.mp hy)
    rw [hc]
    rfl
  unfold World.render renderSpecString
  rw [render_rows w (List.range w.height) hex ""]
  rfl

/-! ### Neighbour-count bounds at edges and corners -/

theorem neighbours_around_canon (w : World) (hwf : w.WF) (x y : Nat) (c : Cell)
    (hc : w.cell_at x y = some c) :
    w.neighbours_around c = canonNbrs w.width w.height x y := by
  have h := WF_cell_at_some w hwf x y c hc
  show neighboursAroundIn w.cells w.cached_directions c = _
  unfold neighboursAroundIn
  rw [h.2.2.2.2]

theorem alive_le_nbrs (w : World) (c : Cell) :
    w.alive_neighbours_around c ≤ (w.neighbours_around c).length :=
  List.countP_le_length _

theorem canonNbrs_le_eight (W H x y : Nat) : (canonNbrs W H x y).length ≤ 8 :=
  List.length_filterMap_le _ _

theorem len_fM_le_budget {α β : Type} (f : α → Option β) (B : α → Nat) (l : List α)
    (h : ∀ a ∈ l, (f a).isSome = true → 1 ≤ B a) :
    (l.filterMap f).length ≤ (l.map B).sum := by
  induction l with
  | nil => simp
  | cons a l ih =>
    rw [List.filterMap_cons, List.map_cons, List.sum_cons]
    cases hfa : f a with
    | none =>
      exact le_trans (ih fun a ha hs => h a (List.mem_cons_of_mem _ ha) hs)
        (Nat.le_add_left _ _)
    | some b =>
      have h1 : 1 ≤ B a := h a (List.mem_cons_self _ _) (by rw [hfa]; rfl)
      have h2 := ih fun a ha hs => h a (List.mem_cons_of_mem _ ha) hs
      simp only [List.length_cons]
      omega

theorem nbrProbe_left (W H y : Nat) (hW : W < u32Size) (d : Int × Int) (hd : d.1 = -1) :
    nbrProbe W H 0 y d = none := by
  unfold nbrProbe
  rw [hd]
  rw [if_neg]
  rintro ⟨h1, -⟩
  have e : u32Add 0 (i8ToU32 (-1)) = 4294967295 := rfl
  have hW' : W < 4294967296 := hW
  rw [e] at h1
  omega

theorem nbrProbe_right (W H y : Nat) (hW : W < u32Size) (h1W : 1 ≤ W) (d : Int × Int)
    (hd : d.1 = 1) : nbrProbe W H (W - 1) y d = none := by
  unfold nbrProbe
  rw [hd]
  rw [if_neg]
  rintro ⟨h1, -⟩
  have e : u32Add (W - 1) (i8ToU32 1) = W := by
    have e1 : i8ToU32 1 = 1 := rfl
    unfold u32Add
    rw [e1]
    show (W - 1 + 1) % 4294967296 = W
    have hW' : W < 4294967296 := hW
    omega
  rw [e] at h1
  exact Nat.lt_irrefl W h1

theorem nbrProbe_top (W H x : Nat) (hH : H < u32Size) (d : Int × Int) (hd : d.2 = -1) :
    nbrProbe W H x 0 d = none := by
  unfold nbrProbe
  rw [hd]
  rw [if_neg]
  rintro ⟨-, h2⟩
  have e : u32Add 0 (i8ToU32 (-1)) = 4294967295 := rfl
  have hH' : H < 4294967296 := hH
  rw [e] at h2
  omega

theorem nbrProbe_bottom (W H x : Nat) (hH : H < u32Size) (h1H : 1 ≤ H) (d : Int × Int)
    (hd : d.2 = 1) : nbrProbe W H x (H - 1) d = none := by
  unfold nbrProbe
  rw [hd]
  rw [if_neg]
  rintro ⟨-, h2⟩
  have e : u32Add (H - 1) (i8ToU32 1) = H := by
    have e1 : i8ToU32 1 = 1 := rfl
    unfold u32Add
    rw [e1]
    show (H - 1 + 1) % 4294967296 = H
    have hH' : H < 4294967296 := hH
    omega
  rw [e] at h2
  exact Nat.lt_irrefl H h2

theorem canonNbrs_left (W H y : Nat) (hW : W < u32Size) :
    (canonNbrs W H 0 y).length ≤ 5 := by
  unfold canonNbrs
  refine le_trans (len_fM_le_budget _ (fun d => if d.1 = -1 then 0 else 1) _ ?_) (by decide)
  intro d hd hs
  by_cases h : d.1 = -1
  · rw [nbrProbe_left W H y hW d h] at hs
    cases hs
  · simp [h]

theorem canonNbrs_right (W H y : Nat) (hW : W < u32Size) (h1W : 1 ≤ W) :
    (canonNbrs W H (W - 1) y).length ≤ 5 := by
  unfold canonNbrs
  refine le_trans (len_fM_le_budget _ (fun d => if d.1 = 1 then 0 else 1) _ ?_) (by decide)
  intro d hd hs
  by_cases h : d.1 = 1
  · rw [nbrProbe_right W H y hW h1W d h] at hs
    cases hs
  · simp [h]

theorem canonNbrs_top (W H x : Nat) (hH : H < u32Size) :
    (canonNbrs W H x 0).length ≤ 5 := by
  unfold canonNbrs
  refine le_trans (len_fM_le_budget _ (fun d => if d.2 = -1 then 0 else 1) _ ?_) (by decide)
  intro d hd hs
  by_cases h : d.2 = -1
  · rw [nbrProbe_top W H x hH d h] at hs
    cases hs
  · simp [h]

theorem canonNbrs_bottom (W H x : Nat) (hH : H < u32Size) (h1H : 1 ≤ H) :
    (canonNbrs W H x (H - 1)).length ≤ 5 := by
  unfold canonNbrs
  refine le_trans (len_fM_le_budget _ (fun d => if d.2 = 1 then 0 else 1) _ ?_) (by decide)
  intro d hd hs
  by_cases h : d.2 = 1
  · rw [nbrProbe_bottom W H x hH h1H d h] at hs
    cases hs
  · simp [h]

theorem canonNbrs_corner (W H x y : Nat) (hW : W < u32Size) (hH : H < u32Size)
    (h1W : 1 ≤ W) (h1H : 1 ≤ H)
    (hx : x = 0 ∨ x = W - 1) (hy : y = 0 ∨ y = H - 1) :
    (canonNbrs W H x y).length ≤ 3 := by
  have hxnone : ∀ d : Int × Int, (d.1 = -1 ∧ x = 0) ∨ (d.1 = 1 ∧ x = W - 1) →
      nbrProbe W H x y d = none := by
    rintro d (⟨hd, rfl⟩ | ⟨hd, rfl⟩)
    · exact nbrProbe_left W H y hW d hd
    · exact nbrProbe_right W H y hW h1W d hd
  have hynone : ∀ d : Int × Int, (d.2 = -1 ∧ y = 0) ∨ (d.2 = 1 ∧ y = H - 1) →
      nbrProbe W H x y d = none := by
    rintro d (⟨hd, rfl⟩ | ⟨hd, rfl⟩)
    · exact nbrProbe_top W H x hH d hd
    · exact nbrProbe_bottom W H x hH h1H d hd
  unfold canonNbrs
  rcases hx with rfl | hxr <;> rcases hy with rfl | hyr
  · refine le_trans (len_fM_le_budget _
      (fun d => if d.1 = -1 ∨ d.2 = -1 then 0 else 1) _ ?_) (by decide)
    intro d hd hs
    by_cases h : d.1 = -1 ∨ d.2 = -1
    · exfalso
      rcases h with h | h
      · rw [hxnone d (Or.inl ⟨h, rfl⟩)] at hs; cases hs
      · rw [hynone d (Or.inl ⟨h, rfl⟩)] at hs; cases hs
    · simp [h]
  · subst hyr
    refine le_trans (len_fM_le_budget _
      (fun d => if d.1 = -1 ∨ d.2 = 1 then 0 else 1) _ ?_) (by decide)
    intro d hd hs
    by_cases h : d.1 = -1 ∨ d.2 = 1
    · exfalso
      rcases h with h | h
      · rw [hxnone d (Or.inl ⟨h, rfl⟩)] at hs; cases hs
      · rw [hynone d (Or.inr ⟨h, rfl⟩)] at hs; cases hs
    · simp [h]
  · subst hxr
    refine le_trans (len_fM_le_budget _
      (fun d => if d.1 = 1 ∨ d.2 = -1 then 0 else 1) _ ?_) (by decide)
    intro d hd hs
    by_cases h : d.1 = 1 ∨ d.2 = -1
    · exfalso
      rcases h with h | h
      · rw [hxnone d (Or.inr ⟨h, rfl⟩)] at hs; cases hs
      · rw [hynone d (Or.inl ⟨h, rfl⟩)] at hs; cases hs
    · simp [h]
  · subst hxr
    subst hyr
    refine le_trans (len_fM_le_budget _
      (fun d => if d.1 = 1 ∨ d.2 = 1 then 0 else 1) _ ?_) (by decide)
    intro d hd hs
    by_cases h : d.1 = 1 ∨ d.2 = 1
    · exfalso
      rcases h with h | h
      · rw [hxnone d (Or.inr ⟨h, rfl⟩)] at hs; cases hs
      · rw [hynone d (Or.inr ⟨h, rfl⟩)] at hs; cases hs
    · simp [h]

/-- C5: on every constructed world at least 3×3, every cell has at most 8
cached neighbours and reports at most that many alive neighbours; a corner
cell has at most 3, and any cell on an edge row or column (in particular a
non-corner edge cell) has at most 5, so `alive_neighbours_around` is bounded
accordingly. -/
theorem c5_neighbour_bounds (w : World) (hw : w.Reachable)
    (h3w : 3 ≤ w.width) (h3h : 3 ≤ w.height) (x y : Nat) (c : Cell)
    (hc : w.cell_at x y = some c) :
    ((w.neighbours_around c).length ≤ 8 ∧ w.alive_neighbours_around c ≤ 8) ∧
    (((x = 0 ∨ x = w.width - 1) ∧ (y = 0 ∨ y = w.height - 1)) →
      (w.neighbours_around c).length ≤ 3 ∧ w.alive_neighbours_around c ≤ 3) ∧
    ((x = 0 ∨ x = w.width - 1 ∨ y = 0 ∨ y = w.height - 1) →
      (w.neighbours_around c).length ≤ 5 ∧ w.alive_neighbours_around c ≤ 5) := by
  have hwf := hw.wf
  obtain ⟨hW, hH, -, -⟩ := hwf
  have hcanon := neighbours_around_canon w hw.wf x y c hc
  have halive := alive_le_nbrs w c
  rw [hcanon] at halive ⊢
  refine ⟨⟨canonNbrs_le_eight _ _ _ _, le_trans halive (canonNbrs_le_eight _ _ _ _)⟩, ?_, ?_⟩
  · rintro ⟨hx, hy⟩
    have hb := canonNbrs_corner w.width w.height x y hW hH (by omega) (by omega) hx hy
    exact ⟨hb, le_trans halive hb⟩
  · intro hedge
    have hb : (canonNbrs w.width w.height x y).length ≤ 5 := by
      rcases hedge with rfl | rfl | rfl | rfl
      · exact canonNbrs_left _ _ _ hW
      · exact canonNbrs_right _ _ _ hW (by omega)
      · exact canonNbrs_top _ _ _ hH
      · exact canonNbrs_bottom _ _ _ hH (by omega)
    exact ⟨hb, le_trans halive hb⟩

/-! ### The pending-state invariant and the transition rule -/

theorem applyCell_one (c : Cell) (h : c.next_state = some 1) :
    applyCell c = { c with alive := true } := by
  unfold applyCell
  rw [h]
  rfl

theorem applyCell_zero (c : Cell) (h : c.next_state = some 0) :
    applyCell c = { c with alive := false } := by
  unfold applyCell
  rw [h]
  rfl

theorem applyCell_none (c : Cell) (h : c.next_state = none) : applyCell c = c := by
  unfold applyCell
  rw [h]
  rfl

theorem applyCell_other (c : Cell) (h1 : c.next_state ≠ some 1) (h0 : c.next_state ≠ some 0) :
    applyCell c = c := by
  unfold applyCell
  rw [if_neg (by simpa using h1), if_neg (by simpa using h0)]

theorem applyCell_alive_of_pendOK (c : Cell) (h : pendOK c) :
    (applyCell c).alive = c.alive := by
  rcases hns : c.next_state with - | v
  · rw [applyCell_none c hns]
  · by_cases hv1 : v = 1
    · subst hv1
      rw [applyCell_one c hns]
      exact (h.1 hns).symm
    · by_cases hv0 : v = 0
      · subst hv0
        rw [applyCell_zero c hns]
        exact (h.2 hns).symm
      · rw [applyCell_other c (by rw [hns]; simp [hv1]) (by rw [hns]; simp [hv0])]

theorem tickCellFun_pendOK (w : World) (c : Cell) (h : pendOK c) :
    pendOK (tickCellFun w c) := by
  unfold tickCellFun
  rw [decideCellIn_unfold]
  split
  · rw [show Cell.next_state_is c (some 1) = { c with next_state := some 1 } from rfl,
      applyCell_one { c with next_state := some 1 } rfl]
    exact ⟨fun _ => rfl, fun hcontra => by simp at hcontra⟩
  · split
    · rw [applyCell_zero { c with next_state := some 0 } rfl]
      exact ⟨fun hcontra => by simp at hcontra, fun _ => rfl⟩
    · rcases hns : c.next_state with - | v
      · rw [applyCell_none c hns]
        exact h
      · by_cases hv1 : v = 1
        · subst hv1
          rw [applyCell_one c hns]
          refine ⟨fun _ => rfl, fun hcontra => ?_⟩
          rw [show ({ c with alive := true } : Cell).next_state = c.next_state from rfl,
            hns] at hcontra
          simp at hcontra
        · by_cases hv0 : v = 0
          · subst hv0
            rw [applyCell_zero c hns]
            refine ⟨fun hcontra => ?_, fun _ => rfl⟩
            rw [show ({ c with alive := false } : Cell).next_state = c.next_state from rfl,
              hns] at hcontra
            simp at hcontra
          · rw [applyCell_other c (by rw [hns]; simp [hv1]) (by rw [hns]; simp [hv0])]
            exact h

theorem pend_inv (w : World) (hw : w.Reachable) : ∀ kc ∈ w.cells, pendOK kc.2 := by
  induction hw with
  | new W H rng hW hH =>
    intro kc hkc
    rw [new_cells] at hkc
    obtain ⟨x, hx, y, hy, rfl⟩ := mem_gridCells _ _ _ _ hkc
    refine ⟨fun h => ?_, fun h => ?_⟩ <;> cases h
  | tick w hw ih =>
    intro kc hkc
    rw [tick_cells] at hkc
    obtain ⟨kc', hkc', rfl⟩ := List.mem_map.mp hkc
    exact tickCellFun_pendOK w kc'.2 (ih kc' hkc')

theorem lookup_mem {k : String} {c : Cell} {m : CellMap}
    (h : List.lookup k m = some c) : (k, c) ∈ m := by
  obtain ⟨l₁, l₂, rfl, -⟩ := List.lookup_eq_some_iff.mp h
  simp

theorem cell_pendOK (w : World) (hw : w.Reachable) (x y : Nat) (c : Cell)
    (hc : w.cell_at x y = some c) : pendOK c :=
  pend_inv w hw (cellKey x y, c) (lookup_mem hc)

theorem new_pending_none (W H : Nat) (rng : Nat → Nat → Bool) (x y : Nat) (c : Cell)
    (hc : (World.new W H rng).cell_at x y = some c) : c.next_state = none := by
  have h : List.lookup (cellKey x y) (World.new W H rng).cells = some c := hc
  rw [new_cells, lookup_gridCells] at h
  by_cases hb : x < W ∧ y < H
  · rw [if_pos hb] at h
    obtain rfl := Option.some.inj h
    rfl
  · rw [if_neg hb] at h
    cases h

theorem decideCellIn_one (cells : CellMap) (dirs : List (Int × Int)) (c : Cell)
    (h1 : (!c.alive && aliveNeighboursAroundIn cells dirs c == 3) = true) :
    decideCellIn cells dirs c = { c with next_state := some 1 } := by
  rw [decideCellIn_unfold, h1]
  rfl

theorem decideCellIn_zero (cells : CellMap) (dirs : List (Int × Int)) (c : Cell)
    (h1 : (!c.alive && aliveNeighboursAroundIn cells dirs c == 3) = false)
    (h2 : (aliveNeighboursAroundIn cells dirs c < 2 ||
      aliveNeighboursAroundIn cells dirs c > 3) = true) :
    decideCellIn cells dirs c = { c with next_state := some 0 } := by
  rw [decideCellIn_unfold, h1, h2]
  rfl

theorem decideCellIn_eq_self (cells : CellMap) (dirs : List (Int × Int)) (c : Cell)
    (h1 : (!c.alive && aliveNeighboursAroundIn cells dirs c == 3) = false)
    (h2 : (aliveNeighboursAroundIn cells dirs c < 2 ||
      aliveNeighboursAroundIn cells dirs c > 3) = false) :
    decideCellIn cells dirs c = c := by
  rw [decideCellIn_unfold, h1, h2]
  rfl

/-- C1: on every constructed world, one `tick()` sets each cell's `alive`
flag by the standard rule, computed from the pre-tick grid: a dead cell with
exactly 3 alive neighbours becomes alive; a live cell with fewer than 2 or
more than 3 alive neighbours becomes dead; a live cell with 2 or 3 alive
neighbours stays alive, and a dead cell with any other count stays dead. -/
theorem c1_transition_rule (w : World) (hw : w.Reachable) (x y : Nat) (c : Cell)
    (hc : w.cell_at x y = some c) :
    (c.alive = false → w.alive_neighbours_around c = 3 →
      Option.map Cell.alive ((w._tick).cell_at x y) = some true) ∧
    (c.alive = true →
      (w.alive_neighbours_around c < 2 ∨ w.alive_neighbours_around c > 3) →
      Option.map Cell.alive ((w._tick).cell_at x y) = some false) ∧
    (c.alive = true → 2 ≤ w.alive_neighbours_around c → w.alive_neighbours_around c ≤ 3 →
      Option.map Cell.alive ((w._tick).cell_at x y) = some true) ∧
    (c.alive = false → w.alive_neighbours_around c ≠ 3 →
      Option.map Cell.alive ((w._tick).cell_at x y) = some false) := by
  have hpend := cell_pendOK w hw x y c hc
  rw [tick_cell_at, hc]
  simp only [Option.map_some']
  unfold World.alive_neighbours_around
  refine ⟨fun ha hn => ?_, fun ha hn => ?_, fun ha hn2 hn3 => ?_, fun ha hn => ?_⟩
  · have h1 : (!c.alive && aliveNeighboursAroundIn w.cells w.cached_directions c == 3) = true := by
      rw [ha, hn]
      rfl
    rw [decideCellIn_one w.cells w.cached_directions c h1,
      applyCell_one { c with next_state := some 1 } rfl]
  · have h1 : (!c.alive && aliveNeighboursAroundIn w.cells w.cached_directions c == 3) = false := by
      rw [ha]
      rfl
    have h2 : (aliveNeighboursAroundIn w.cells w.cached_directions c < 2 ||
        aliveNeighboursAroundIn w.cells w.cached_directions c > 3) = true := by
      rcases hn with hn | hn
      · simp [hn]
      · simp [hn]
    rw [decideCellIn_zero w.cells w.cached_directions c h1 h2,
      applyCell_zero { c with next_state := some 0 } rfl]
  · have h1 : (!c.alive && aliveNeighboursAroundIn w.cells w.cached_directions c == 3) = false := by
      rw [ha]
      rfl
    have h2 : (aliveNeighboursAroundIn w.cells w.cached_directions c < 2 ||
        aliveNeighboursAroundIn w.cells w.cached_directions c > 3) = false := by
      simp only [Bool.or_eq_false_iff, decide_eq_false_iff_not]
      omega
    rw [decideCellIn_eq_self w.cells w.cached_directions c h1 h2]
    rw [applyCell_alive_of_pendOK c hpend, ha]
  · have h1 : (!c.alive && aliveNeighboursAroundIn w.cells w.cached_directions c == 3) = false := by
      rw [ha]
      simpa using hn
    by_cases hlt : aliveNeighboursAroundIn w.cells w.cached_directions c < 2 ∨
        aliveNeighboursAroundIn w.cells w.cached_directions c > 3
    · have h2 : (aliveNeighboursAroundIn w.cells w.cached_directions c < 2 ||
          aliveNeighboursAroundIn w.cells w.cached_directions c > 3) = true := by
        rcases hlt with hl | hl
        · simp [hl]
        · simp [hl]
      rw [decideCellIn_zero w.cells w.cached_directions c h1 h2,
        applyCell_zero { c with next_state := some 0 } rfl]
    · have h2 : (aliveNeighboursAroundIn w.cells w.cached_directions c < 2 ||
          aliveNeighboursAroundIn w.cells w.cached_directions c > 3) = false := by
        simp only [Bool.or_eq_false_iff, decide_eq_false_iff_not]
        omega
      rw [decideCellIn_eq_self w.cells w.cached_directions c h1 h2]
      rw [applyCell_alive_of_pendOK c hpend, ha]

/-- C9: in every reachable world, a cell's pending slot, when set, agrees
with its current `alive` flag (`Some(1)` only on a live cell, `Some(0)` only
on a dead one); at construction all pending slots are empty; consequently a
left-over pending value never changes a cell's state in a tick in which
neither decide-phase rule fires for it. -/
theorem c9_pending_invariant (w : World) (hw : w.Reachable) (x y : Nat) (c : Cell)
    (hc : w.cell_at x y = some c) :
    (c.next_state = some 1 → c.alive = true) ∧
    (c.next_state = some 0 → c.alive = false) ∧
    (∀ (W H : Nat) (rng : Nat → Nat → Bool) (a b : Nat) (c' : Cell),
      (World.new W H rng).cell_at a b = some c' → c'.next_state = none) ∧
    ((!c.alive && w.alive_neighbours_around c == 3) = false →
      (w.alive_neighbours_around c < 2 || w.alive_neighbours_around c > 3) = false →
      Option.map Cell.alive ((w._tick).cell_at x y) = some c.alive) := by
  have hpend := cell_pendOK w hw x y c hc
  refine ⟨hpend.1, hpend.2, fun W H rng a b c' hc' => new_pending_none W H rng a b c' hc', ?_⟩
  intro h1 h2
  unfold World.alive_neighbours_around at h1 h2
  rw [tick_cell_at, hc]
  simp only [Option.map_some']
  rw [decideCellIn_eq_self w.cells w.cached_directions c h1 h2,
    applyCell_alive_of_pendOK c hpend]

/-! ### The blinker oscillates with period 2 -/

set_option maxRecDepth 40000 in
theorem blink_tick_one : blinkWorld._tick = mkGridWorld 5 5 1 blinkSt1 := by decide

set_option maxRecDepth 40000 in
theorem blink_tick_two : (mkGridWorld 5 5 1 blinkSt1)._tick = mkGridWorld 5 5 2 blinkSt2 := by
  decide

set_option maxRecDepth 40000 in
/-- C7: starting from the all-dead 5×5 world with a horizontal 3-cell live
segment (the blinker), the live cells are initially exactly the horizontal
segment through (2,2); after one `tick()` exactly the vertical 3-cell segment
through (2,2) is alive; after a second `tick()` exactly the original
horizontal segment is alive again — period-2 oscillation. -/
theorem c7_blinker :
    (∀ x, x < 5 → ∀ y, y < 5 →
      (aliveAt blinkWorld x y = true ↔ (y = 2 ∧ (x = 1 ∨ x = 2 ∨ x = 3)))) ∧
    (∀ x, x < 5 → ∀ y, y < 5 →
      (aliveAt (blinkWorld._tick) x y = true ↔ (x = 2 ∧ (y = 1 ∨ y = 2 ∨ y = 3)))) ∧
    (∀ x, x < 5 → ∀ y, y < 5 →
      (aliveAt (blinkWorld._tick._tick) x y = true ↔ (y = 2 ∧ (x = 1 ∨ x = 2 ∨ x = 3)))) := by
  refine ⟨by decide, ?_, ?_⟩
  · rw [blink_tick_one]
    decide
  · rw [blink_tick_one, blink_tick_two]
    decide

/-! ### Order independence of the tick loops -/

theorem if_beq_true {α : Type} (a b : String) (h : (a == b) = true) (x y : α) :
    (if a == b then x else y) = x := by
  simp [h]

theorem if_beq_false {α : Type} (a b : String) (h : (a == b) = false) (x y : α) :
    (if a == b then x else y) = y := by
  simp [h]

theorem lookup_aliveProj (k : String) (m : CellMap) :
    List.lookup k (aliveProj m) = (List.lookup k m).map Cell.alive := by
  unfold aliveProj
  exact lookup_map_value Cell.alive k m

theorem cellAtIn_alive_proj (m₁ m₂ : CellMap) (h : aliveProj m₁ = aliveProj m₂) (x y : Nat) :
    (cellAtIn m₁ x y).map Cell.alive = (cellAtIn m₂ x y).map Cell.alive := by
  unfold cellAtIn
  rw [← lookup_aliveProj, ← lookup_aliveProj, h]

theorem cellAtIn_isSome_proj (m₁ m₂ : CellMap) (h : aliveProj m₁ = aliveProj m₂) (x y : Nat) :
    (cellAtIn m₁ x y).isSome = (cellAtIn m₂ x y).isSome := by
  rw [← Option.isSome_map' (f := Cell.alive), cellAtIn_alive_proj m₁ m₂ h,
    Option.isSome_map']

theorem alive_match_eq (o : Option Cell) :
    (match o with | some n => n.alive | none => false) = (o.map Cell.alive).getD false := by
  cases o <;> rfl

theorem computeNeighboursIn_proj (m₁ m₂ : CellMap) (dirs : List (Int × Int)) (c : Cell)
    (h : aliveProj m₁ = aliveProj m₂) :
    computeNeighboursIn m₁ dirs c = computeNeighboursIn m₂ dirs c := by
  unfold computeNeighboursIn
  congr 1
  funext set
  simp only [cellAtIn_isSome_proj m₁ m₂ h]

theorem neighboursAroundIn_proj (m₁ m₂ : CellMap) (dirs : List (Int × Int)) (c : Cell)
    (h : aliveProj m₁ = aliveProj m₂) :
    neighboursAroundIn m₁ dirs c = neighboursAroundIn m₂ dirs c := by
  unfold neighboursAroundIn
  cases hnb : c.neighbours with
  | some ns => rfl
  | none => exact computeNeighboursIn_proj m₁ m₂ dirs c h

theorem aliveNeighboursAroundIn_proj (m₁ m₂ : CellMap) (dirs : List (Int × Int)) (c : Cell)
    (h : aliveProj m₁ = aliveProj m₂) :
    aliveNeighboursAroundIn m₁ dirs c = aliveNeighboursAroundIn m₂ dirs c := by
  unfold aliveNeighboursAroundIn
  rw [neighboursAroundIn_proj m₁ m₂ dirs c h]
  refine List.countP_congr fun p hp => ?_
  rw [alive_match_eq, alive_match_eq, cellAtIn_alive_proj m₁ m₂ h]

theorem decideCellIn_proj (m₁ m₂ : CellMap) (dirs : List (Int × Int)) (c : Cell)
    (h : aliveProj m₁ = aliveProj m₂) :
    decideCellIn m₁ dirs c = decideCellIn m₂ dirs c := by
  rw [decideCellIn_unfold, decideCellIn_unfold,
    aliveNeighboursAroundIn_proj m₁ m₂ dirs c h]

theorem aliveProj_decideStep (dirs : List (Int × Int)) (m : CellMap) (k : String) :
    aliveProj (decideStep dirs m k) = aliveProj m := by
  unfold decideStep updateCellAt aliveProj
  rw [List.map_map]
  refine List.map_congr_left fun kc hkc => ?_
  show (fun kc => (kc.1, kc.2.alive)) (if kc.1 == k then (kc.1, decideCellIn m dirs kc.2) else kc)
    = (kc.1, kc.2.alive)
  cases hb : kc.1 == k
  · simp only [Bool.false_eq_true, if_false]
  · simp only [eq_self_iff_true, if_true]
    obtain ⟨p, hp⟩ := decideCellIn_shape m dirs kc.2
    rw [hp]

theorem decideSeq_eq (dirs : List (Int × Int)) (order : List String) :
    ∀ m : CellMap, order.Nodup →
      order.foldl (decideStep dirs) m
        = m.map (fun kc => if kc.1 ∈ order then (kc.1, decideCellIn m dirs kc.2) else kc) := by
  induction order with
  | nil =>
    intro m _
    simp
  | cons k rest ih =>
    intro m hnd
    obtain ⟨hk, hrest⟩ := List.nodup_cons.mp hnd
    rw [List.foldl_cons, ih _ hrest]
    have hproj : aliveProj (decideStep dirs m k) = aliveProj m := aliveProj_decideStep dirs m k
    unfold decideStep updateCellAt
    rw [List.map_map]
    refine List.map_congr_left fun kc hkc => ?_
    show (fun kc => if kc.1 ∈ rest then
          (kc.1, decideCellIn (decideStep dirs m k) dirs kc.2) else kc)
        ((fun kc => if kc.1 == k then (kc.1, decideCellIn m dirs kc.2) else kc) kc)
      = if kc.1 ∈ k :: rest then (kc.1, decideCellIn m dirs kc.2) else kc
    cases hb : kc.1 == k
    · simp only [hb, Bool.false_eq_true, if_false]
      by_cases hm : kc.1 ∈ rest
      · rw [if_pos hm, if_pos (List.mem_cons_of_mem k hm),
          decideCellIn_proj _ _ dirs kc.2 hproj]
      · rw [if_neg hm, if_neg]
        intro hmem
        rcases List.mem_cons.mp hmem with heq | hmem'
        · rw [heq] at hb
          simp at hb
        · exact hm hmem'
    · simp only [hb, eq_self_iff_true, if_true]
      have hkeq : kc.1 = k := by simpa using hb
      rw [if_neg, if_pos (by rw [hkeq]; exact List.mem_cons_self k rest)]
      rw [hkeq]
      exact fun hmem => hk hmem

theorem applySeq_eq (order : List String) :
    ∀ m : CellMap, order.Nodup →
      order.foldl applyStep m
        = m.map (fun kc => if kc.1 ∈ order then (kc.1, applyCell kc.2) else kc) := by
  induction order with
  | nil =>
    intro m _
    simp
  | cons k rest ih =>
    intro m hnd
    obtain ⟨hk, hrest⟩ := List.nodup_cons.mp hnd
    rw [List.foldl_cons, ih _ hrest]
    unfold applyStep updateCellAt
    rw [List.map_map]
    refine List.map_congr_left fun kc hkc => ?_
    show (fun kc => if kc.1 ∈ rest then (kc.1, applyCell kc.2) else kc)
        ((fun kc => if kc.1 == k then (kc.1, applyCell kc.2) else kc) kc)
      = if kc.1 ∈ k :: rest then (kc.1, applyCell kc.2) else kc
    cases hb : kc.1 == k
    · simp only [hb, Bool.false_eq_true, if_false]
      by_cases hm : kc.1 ∈ rest
      · rw [if_pos hm, if_pos (List.mem_cons_of_mem k hm)]
      · rw [if_neg hm, if_neg]
        intro hmem
        rcases List.mem_cons.mp hmem with heq | hmem'
        · rw [heq] at hb
          simp at hb
        · exact hm hmem'
    · simp only [hb, eq_self_iff_true, if_true]
      have hkeq : kc.1 = k := by simpa using hb
      rw [if_neg, if_pos (by rw [hkeq]; exact List.mem_cons_self k rest)]
      rw [hkeq]
      exact fun hmem => hk hmem

theorem keys_map_value (f : Cell → Cell) (m : CellMap) :
    (m.map (fun kc => (kc.1, f kc.2))).map Prod.fst = m.map Prod.fst := by
  rw [List.map_map]
  rfl

theorem decideSeq_perm (dirs : List (Int × Int)) (order : List String) (m : CellMap)
    (hnd : (m.map Prod.fst).Nodup) (hperm : order.Perm (m.map Prod.fst)) :
    order.foldl (decideStep dirs) m = m.map (fun kc => (kc.1, decideCellIn m dirs kc.2)) := by
  rw [decideSeq_eq dirs order m (hperm.nodup_iff.mpr hnd)]
  refine List.map_congr_left fun kc hkc => ?_
  rw [if_pos (hperm.mem_iff.mpr (List.mem_map_of_mem Prod.fst hkc))]

theorem applySeq_perm (order : List String) (m : CellMap)
    (hnd : (m.map Prod.fst).Nodup) (hperm : order.Perm (m.map Prod.fst)) :
    order.foldl applyStep m = m.map (fun kc => (kc.1, applyCell kc.2)) := by
  rw [applySeq_eq order m (hperm.nodup_iff.mpr hnd)]
  refine List.map_congr_left fun kc hkc => ?_
  rw [if_pos (hperm.mem_iff.mpr (List.mem_map_of_mem Prod.fst hkc))]

/-- The explicitly ordered tick equals the simultaneous one for any two
visiting orders of the cell set. -/
theorem tickSeq_eq_tick (w : World) (o₁ o₂ : List String)
    (hnd : (w.cells.map Prod.fst).Nodup)
    (h₁ : o₁.Perm (w.cells.map Prod.fst)) (h₂ : o₂.Perm (w.cells.map Prod.fst)) :
    w.tickSeq o₁ o₂ = w._tick := by
  have hdec := decideSeq_perm w.cached_directions o₁ w.cells hnd h₁
  have happ := applySeq_perm o₂
    (w.cells.map (fun kc => (kc.1, decideCellIn w.cells w.cached_directions kc.2)))
    (by rw [keys_map_value]; exact hnd) (by rw [keys_map_value]; exact h₂)
  show World.mk w.width w.height (u32Add w.tick 1)
      (List.foldl applyStep (List.foldl (decideStep w.cached_directions) w.cells o₁) o₂)
      w.cached_directions
    = w._tick
  rw [hdec, happ]
  rfl

theorem gridCells_keys_nodup (W H : Nat) (f : Nat → Nat → Cell) :
    ((gridCells W H f).map Prod.fst).Nodup := by
  rw [List.nodup_iff_count_le_one]
  intro a
  by_cases hmem : a ∈ (gridCells W H f).map Prod.fst
  · obtain ⟨kc, hkc, rfl⟩ := List.mem_map.mp hmem
    obtain ⟨x, hx, y, hy, rfl⟩ := mem_gridCells _ _ _ _ hkc
    have hcnt : ((gridCells W H f).map Prod.fst).count (cellKey x y)
        = (gridCells W H f).countP (fun kc => kc.1 == cellKey x y) := by
      rw [List.count_eq_countP, List.countP_map]
      rfl
    rw [hcnt, countP_gridCells, if_pos ⟨hx, hy⟩]
  · rw [List.count_eq_zero.mpr hmem]
    omega

theorem WF_keys_nodup (w : World) (h : w.WF) : (w.cells.map Prod.fst).Nodup := by
  obtain ⟨-, -, -, st, hcells⟩ := h
  rw [hcells]
  exact gridCells_keys_nodup _ _ _

theorem gridCells_congr (W H : Nat) (f g : Nat → Nat → Cell)
    (h : ∀ x y, x < W → y < H → f x y = g x y) :
    gridCells W H f = gridCells W H g := by
  unfold gridCells
  have haux : ∀ ys : List Nat, (∀ y ∈ ys, y < H) →
      ys.flatMap (fun y => (List.range W).map fun x => (cellKey x y, f x y))
        = ys.flatMap (fun y => (List.range W).map fun x => (cellKey x y, g x y)) := by
    intro ys
    induction ys with
    | nil => intro; rfl
    | cons a l ih =>
      intro hys
      rw [List.flatMap_cons, List.flatMap_cons, ih (fun y hy => hys y (List.mem_cons_of_mem a hy)),
        List.map_congr_left fun x hx =>
          congrArg (Prod.mk (cellKey x a)) (h x a (List.mem_range.mp hx) (hys a (List.mem_cons_self a l)))]
  exact haux (List.range H) (fun y hy => List.mem_range.mp hy)

/-- C10: `tick()` does not depend on the order in which the two loops visit
the cells — for any two constructed worlds with equal dimensions and equal
per-cell (alive, pending) state, one tick under any visiting orders yields
equal per-cell (alive, pending) state. -/
theorem c10_order_independence (w₁ w₂ : World) (h₁ : w₁.Reachable) (h₂ : w₂.Reachable)
    (hW : w₁.width = w₂.width) (hH : w₁.height = w₂.height)
    (hcells : ∀ x y, Option.map cellView (w₁.cell_at x y)
      = Option.map cellView (w₂.cell_at x y))
    (o₁ o₂ o₁' o₂' : List String)
    (p₁ : o₁.Perm (w₁.cells.map Prod.fst)) (p₂ : o₂.Perm (w₁.cells.map Prod.fst))
    (p₁' : o₁'.Perm (w₂.cells.map Prod.fst)) (p₂' : o₂'.Perm (w₂.cells.map Prod.fst)) :
    ∀ x y, Option.map cellView ((w₁.tickSeq o₁ o₂).cell_at x y)
      = Option.map cellView ((w₂.tickSeq o₁' o₂').cell_at x y) := by
  obtain ⟨hW₁, hH₁, hdir₁, st₁, hcells₁⟩ := h₁.wf
  obtain ⟨hW₂, hH₂, hdir₂, st₂, hcells₂⟩ := h₂.wf
  rw [tickSeq_eq_tick w₁ o₁ o₂ (WF_keys_nodup w₁ h₁.wf) p₁ p₂,
    tickSeq_eq_tick w₂ o₁' o₂' (WF_keys_nodup w₂ h₂.wf) p₁' p₂']
  have hc12 : w₁.cells = w₂.cells := by
    rw [hcells₁, hcells₂, ← hW, ← hH]
    refine gridCells_congr _ _ _ _ fun x y hx hy => ?_
    have hv := hcells x y
    have e₁ : w₁.cell_at x y = some (Cell.mk x y (st₁ x y).1 (st₁ x y).2
        (some (canonNbrs w₁.width w₁.height x y))) := by
      show List.lookup _ w₁.cells = _
      rw [hcells₁, lookup_gridCells, if_pos ⟨hx, hy⟩]
    have e₂ : w₂.cell_at x y = some (Cell.mk x y (st₂ x y).1 (st₂ x y).2
        (some (canonNbrs w₂.width w₂.height x y))) := by
      show List.lookup _ w₂.cells = _
      rw [hcells₂, lookup_gridCells, if_pos ⟨hW ▸ hx, hH ▸ hy⟩]
    rw [e₁, e₂] at hv
    simp only [Option.map_some'] at hv
    unfold cellView at hv
    simp only [Option.some.injEq, Prod.mk.injEq] at hv
    rw [show (st₁ x y).1 = (st₂ x y).1 from hv.1, show (st₁ x y).2 = (st₂ x y).2 from hv.2]
  have hdirs12 : w₁.cached_directions = w₂.cached_directions := by
    rw [hdir₁, hdir₂]
  have htf : tickCellFun w₁ = tickCellFun w₂ := by
    unfold tickCellFun
    rw [hc12, hdirs12]
  have htick : (w₁._tick).cells = (w₂._tick).cells := by
    rw [tick_cells, tick_cells, htf, hc12]
  intro x y
  show Option.map cellView (cellAtIn (w₁._tick).cells x y)
    = Option.map cellView (cellAtIn (w₂._tick).cells x y)
  rw [htick]

/-! ### Concrete witnesses -/

theorem c1_transition_rule_witness :
    wit2.cell_at 0 0 = some witCell ∧ witCell.alive = false ∧
    wit2.alive_neighbours_around witCell ≠ 3 ∧
    Option.map Cell.alive ((wit2._tick).cell_at 0 0) = some false :=
  ⟨by decide, by decide, by decide,
    (c1_transition_rule wit2
        (World.Reachable.new 2 2 (fun _ _ => false) (by decide) (by decide)) 0 0 witCell
        (by decide)).2.2.2 (by decide) (by decide)⟩

theorem c2_pending_after_tick_witness :
    wit2.cell_at 0 0 = some witCell ∧
    ((applyCell witCell).next_state = witCell.next_state ∧
      ((wit2._tick).cell_at 0 0).map Cell.next_state = some (
        if !witCell.alive && wit2.alive_neighbours_around witCell == 3 then some 1
        else if wit2.alive_neighbours_around witCell < 2 ||
            wit2.alive_neighbours_around witCell > 3 then some 0
        else witCell.next_state)) :=
  ⟨by decide, c2_pending_after_tick wit2 0 0 witCell (by decide)⟩

theorem c3_render_shape_witness : wit2.render = some (renderSpecString wit2) :=
  c3_render_shape wit2 (World.Reachable.new 2 2 (fun _ _ => false) (by decide) (by decide))

theorem c4_cell_at_bounds_witness :
    ((wit2.cell_at 0 0).isSome = true ↔ (0 < wit2.width ∧ 0 < wit2.height)) ∧
    ((wit2.cell_at (u32Add 0 (i8ToU32 ((-1 : Int), (0 : Int)).1))
        (u32Add 0 (i8ToU32 ((-1 : Int), (0 : Int)).2))).isSome = true ↔
      (0 ≤ ((0 : Nat) : Int) + ((-1 : Int), (0 : Int)).1 ∧
        ((0 : Nat) : Int) + ((-1 : Int), (0 : Int)).1 < (wit2.width : Int) ∧
        0 ≤ ((0 : Nat) : Int) + ((-1 : Int), (0 : Int)).2 ∧
        ((0 : Nat) : Int) + ((-1 : Int), (0 : Int)).2 < (wit2.height : Int))) :=
  ⟨(c4_cell_at_bounds wit2
      (World.Reachable.new 2 2 (fun _ _ => false) (by decide) (by decide))).1 0 0,
    (c4_cell_at_bounds wit2
      (World.Reachable.new 2 2 (fun _ _ => false) (by decide) (by decide))).2 0 0
      (by decide) (by decide) ((-1 : Int), (0 : Int)) (by decide)⟩

theorem c5_neighbour_bounds_witness :
    3 ≤ wit3.width ∧ 3 ≤ wit3.height ∧ wit3.cell_at 0 0 = some witCell ∧
    (wit3.neighbours_around witCell).length ≤ 8 ∧
    (wit3.neighbours_around witCell).length ≤ 3 ∧
    wit3.alive_neighbours_around witCell ≤ 3 :=
  ⟨by decide, by decide, by decide,
    (c5_neighbour_bounds wit3
        (World.Reachable.new 3 3 (fun _ _ => false) (by decide) (by decide))
        (by decide) (by decide) 0 0 witCell (by decide)).1.1,
    ((c5_neighbour_bounds wit3
        (World.Reachable.new 3 3 (fun _ _ => false) (by decide) (by decide))
        (by decide) (by decide) 0 0 witCell (by decide)).2.1
      ⟨Or.inl rfl, Or.inl rfl⟩).1,
    ((c5_neighbour_bounds wit3
        (World.Reachable.new 3 3 (fun _ _ => false) (by decide) (by decide))
        (by decide) (by decide) 0 0 witCell (by decide)).2.1
      ⟨Or.inl rfl, Or.inl rfl⟩).2⟩

theorem c6_unique_mapping_witness :
    wit2.cells.countP (fun kc => kc.1 == cellKey 1 0) = 1 ∧
    (wit2._tick).cells.map Prod.fst = wit2.cells.map Prod.fst :=
  ⟨(c6_unique_mapping wit2
      (World.Reachable.new 2 2 (fun _ _ => false) (by decide) (by decide))
      (by decide) (by decide)).1 1 0 (by decide) (by decide),
    (c6_unique_mapping wit2
      (World.Reachable.new 2 2 (fun _ _ => false) (by decide) (by decide))
      (by decide) (by decide)).2.2⟩

theorem c7_blinker_witness :
    aliveAt blinkWorld._tick 2 1 = true ↔ (2 = 2 ∧ (1 = 1 ∨ 1 = 2 ∨ 1 = 3)) :=
  c7_blinker.2.1 2 (by decide) 1 (by decide)

theorem c8_tick_counter_witness :
    wit2.tick < u32Size - 1 ∧ (wit2._tick).tick = wit2.tick + 1 ∧
    2 < u32Size ∧ (tickN 2 (World.new 2 2 (fun _ _ => false))).tick = 2 :=
  ⟨by decide, c8_tick_counter.2.2.1 wit2 (by decide), by decide,
    c8_tick_counter.2.2.2.2 2 (by decide) 2 2 (fun _ _ => false)⟩

theorem c9_pending_invariant_witness :
    blinkWorld._tick.cell_at 1 1 = some witCell9 ∧
    (!witCell9.alive && blinkWorld._tick.alive_neighbours_around witCell9 == 3) = false ∧
    (blinkWorld._tick.alive_neighbours_around witCell9 < 2 ||
      blinkWorld._tick.alive_neighbours_around witCell9 > 3) = false ∧
    Option.map Cell.alive ((blinkWorld._tick._tick).cell_at 1 1) = some witCell9.alive :=
  ⟨by decide, by decide, by decide,
    (c9_pending_invariant blinkWorld._tick
        (World.Reachable.tick _ (World.Reachable.new 5 5 blinkRng (by decide) (by decide)))
        1 1 witCell9 (by decide)).2.2.2 (by decide) (by decide)⟩

theorem c10_order_independence_witness :
    Option.map cellView
        ((wit2.tickSeq [cellKey 0 0, cellKey 1 0, cellKey 0 1, cellKey 1 1]
          [cellKey 1 1, cellKey 0 1, cellKey 1 0, cellKey 0 0]).cell_at 0 0)
      = Option.map cellView
        ((wit2.tickSeq [cellKey 1 1, cellKey 0 1, cellKey 1 0, cellKey 0 0]
          [cellKey 0 0, cellKey 1 0, cellKey 0 1, cellKey 1 1]).cell_at 0 0) :=
  c10_order_independence wit2 wit2
    (World.Reachable.new 2 2 (fun _ _ => false) (by decide) (by decide))
    (World.Reachable.new 2 2 (fun _ _ => false) (by decide) (by decide))
    rfl rfl (fun x y => rfl)
    [cellKey 0 0, cellKey 1 0, cellKey 0 1, cellKey 1 1]
    [cellKey 1 1, cellKey 0 1, cellKey 1 0, cellKey 0 0]
    [cellKey 1 1, cellKey 0 1, cellKey 1 0, cellKey 0 0]
    [cellKey 0 0, cellKey 1 0, cellKey 0 1, cellKey 1 1]
    (by decide) (by decide) (by decide) (by decide) 0 0

end GoL
